import Mathlib

/-!
Verification development for the langsmith data-migration tool.

Each definition below is a shallow embedding of a function from the
repository's Python sources (`langsmith_migrator/...`); the file name and
function name of the original are given in the doc comment of each
definition.  Machine integers do not occur (the Python code uses unbounded
ints); fallible code is modelled with `Option`, raised exceptions with
`Option`/sum-style result types, and mutable dictionaries with association
lists whose most recent insertion shadows older entries, matching Python
dict overwrite semantics.
-/

namespace LsMig

/-- Python truthiness of an optional string: `None` and `""` are falsy,
every other string is truthy.  Used wherever the source writes
`if some_optional_str:`. -/
def truthy : Option String → Bool
  | none => false
  | some s => !(s == "")

/-- Dictionary lookup on an association list; the head of the list is the
most recent insertion and shadows older bindings (`d[k] = v` is modelled by
prepending). -/
def alookup {α : Type} : List (String × α) → String → Option α
  | [], _ => none
  | (k, v) :: rest, key => if k = key then some v else alookup rest key

/-- `d[k] = v` on a Python dict. -/
def ainsert {α : Type} (m : List (String × α)) (k : String) (v : α) :
    List (String × α) :=
  (k, v) :: m

theorem alookup_cons {α : Type} (k : String) (v : α) (m : List (String × α))
    (key : String) :
    alookup ((k, v) :: m) key = if k = key then some v else alookup m key := rfl

/-! ## `_regenerate_dotted_order`
(`langsmith_migrator/core/migrators/experiment.py`)

`dotted_order` is a dot-separated list of `{timestamp}Z{uuid}` segments.
The Python code finds the last `Z` of each segment with `str.rfind`; a
segment with no `Z`, or whose last `Z` is its final character, is kept
unchanged. -/

/-- Index of the last occurrence of `Z` in a character list
(Python `part.rfind("Z")`, with `none` for `-1`). -/
def rfindZ : List Char → Option Nat
  | [] => none
  | c :: cs =>
    match rfindZ cs with
    | some i => some (i + 1)
    | none => if c = 'Z' then some 0 else none

/-- Split a segment at its last `Z`: returns
`(timestamp including the Z, uuid after the Z)`, or `none` when the segment
has no `Z` or the `Z` is its final character (the code then keeps the
segment as-is). -/
def lastZSplit (cs : List Char) : Option (List Char × List Char) :=
  match rfindZ cs with
  | none => none
  | some i =>
    if i + 1 = cs.length then none
    else some (cs.take (i + 1), cs.drop (i + 1))

/-- Rewrite of a non-final segment: the uuid after the last `Z` is replaced
by its image under the mapping, kept unchanged when unmapped. -/
def processMid (idMapping : List (String × String)) (part : String) : String :=
  match lastZSplit part.toList with
  | none => part
  | some (ts, uu) =>
    let old := String.mk uu
    String.mk ts ++ ((alookup idMapping old).getD old)

/-- Rewrite of the final segment: the uuid after the last `Z` is always
replaced by the new run id. -/
def processLast (newRunId : String) (part : String) : String :=
  match lastZSplit part.toList with
  | none => part
  | some (ts, _) => String.mk ts ++ newRunId

/-- The per-segment loop of `_regenerate_dotted_order`: every segment except
the last goes through `processMid`, the last through `processLast`. -/
def regenParts (idMapping : List (String × String)) (newRunId : String) :
    List String → List String
  | [] => []
  | [p] => [processLast newRunId p]
  | p :: q :: ps => processMid idMapping p :: regenParts idMapping newRunId (q :: ps)

/-- Python `s.split(".")` on a character list: splits at every dot,
keeping empty segments (`"a..b" ↦ ["a", "", "b"]`). -/
def splitDotAux : List Char → List Char → List (List Char)
  | [], acc => [acc.reverse]
  | c :: cs, acc =>
    if c = '.' then acc.reverse :: splitDotAux cs []
    else splitDotAux cs (c :: acc)

/-- Python `s.split(".")` as a list of strings. -/
def splitDots (s : String) : List String :=
  (splitDotAux s.toList []).map String.mk

/-- `ExperimentMigrator._regenerate_dotted_order`
(`core/migrators/experiment.py`): split on `.`, rewrite each segment, join
with `.`.  A `None` or empty input returns `None`. -/
def regenerateDottedOrder (dottedOrder : Option String)
    (idMapping : List (String × String)) (newRunId : String) : Option String :=
  match dottedOrder with
  | none => none
  | some s =>
    if s = "" then none
    else some (String.intercalate "." (regenParts idMapping newRunId (splitDots s)))

theorem rfindZ_eq_none (u : List Char) (h : 'Z' ∉ u) : rfindZ u = none := by
  induction u with
  | nil => rfl
  | cons c u ih =>
    simp only [List.mem_cons, not_or] at h
    have hc : ¬ (c = 'Z') := fun hc => h.1 hc.symm
    simp [rfindZ, ih h.2, hc]

theorem rfindZ_append_of_none (t u : List Char) (hu : rfindZ u = none) :
    rfindZ (t ++ u) = rfindZ t := by
  induction t with
  | nil => simpa using hu
  | cons c t ih => simp [rfindZ, ih]

theorem rfindZ_snoc (t : List Char) : rfindZ (t ++ ['Z']) = some t.length := by
  induction t with
  | nil => rfl
  | cons c t ih => simp [rfindZ, ih]

theorem lastZSplit_wf (t0 u : List Char) (hz : 'Z' ∉ u) (hne : u ≠ []) :
    lastZSplit (t0 ++ 'Z' :: u) = some (t0 ++ ['Z'], u) := by
  have h1 : t0 ++ 'Z' :: u = (t0 ++ ['Z']) ++ u := by simp
  have hulen : u.length ≠ 0 := by simpa using hne
  rw [h1, lastZSplit, rfindZ_append_of_none _ _ (rfindZ_eq_none u hz), rfindZ_snoc]
  have hcond : ¬ (t0.length + 1 = ((t0 ++ ['Z']) ++ u).length) := by
    simp only [List.length_append, List.length_cons, List.length_nil]
    omega
  dsimp only
  rw [if_neg hcond]
  have hlen : (t0 ++ ['Z']).length = t0.length + 1 := by simp
  rw [List.take_left' hlen, List.drop_left' hlen]

theorem processMid_wf (m : List (String × String)) (t0 u : List Char)
    (hz : 'Z' ∉ u) (hne : u ≠ []) :
    processMid m (String.mk (t0 ++ 'Z' :: u))
      = String.mk (t0 ++ ['Z']) ++ ((alookup m (String.mk u)).getD (String.mk u)) := by
  unfold processMid
  rw [show (String.mk (t0 ++ 'Z' :: u)).toList = t0 ++ 'Z' :: u from rfl]
  rw [lastZSplit_wf t0 u hz hne]

theorem processLast_wf (nid : String) (t0 u : List Char)
    (hz : 'Z' ∉ u) (hne : u ≠ []) :
    processLast nid (String.mk (t0 ++ 'Z' :: u)) = String.mk (t0 ++ ['Z']) ++ nid := by
  unfold processLast
  rw [show (String.mk (t0 ++ 'Z' :: u)).toList = t0 ++ 'Z' :: u from rfl]
  rw [lastZSplit_wf t0 u hz hne]

theorem regenParts_length (m : List (String × String)) (nid : String)
    (ps : List String) : (regenParts m nid ps).length = ps.length := by
  induction ps with
  | nil => rfl
  | cons p ps ih =>
    cases ps with
    | nil => rfl
    | cons q ps' => simp only [regenParts, List.length_cons] at ih ⊢; omega

theorem regenParts_get_mid (m : List (String × String)) (nid : String)
    (ps : List String) (p : String) :
    ∀ i, ps[i]? = some p → i + 1 < ps.length →
      (regenParts m nid ps)[i]? = some (processMid m p) := by
  induction ps with
  | nil => intro i hp _; simp at hp
  | cons q ps ih =>
    intro i hp hi
    cases ps with
    | nil => simp at hi
    | cons r ps' =>
      cases i with
      | zero =>
        simp only [List.getElem?_cons_zero, Option.some.injEq] at hp
        subst hp
        simp [regenParts]
      | succ j =>
        simp only [List.getElem?_cons_succ] at hp
        simp only [List.length_cons] at hi
        have hj : j + 1 < (r :: ps').length := by
          simp only [List.length_cons]; omega
        have := ih j hp hj
        simpa [regenParts] using this

theorem regenParts_get_last (m : List (String × String)) (nid : String)
    (ps : List String) (p : String) :
    ∀ i, ps[i]? = some p → i + 1 = ps.length →
      (regenParts m nid ps)[i]? = some (processLast nid p) := by
  induction ps with
  | nil => intro i hp _; simp at hp
  | cons q ps ih =>
    intro i hp hi
    cases ps with
    | nil =>
      simp only [List.length_cons, List.length_nil] at hi
      have : i = 0 := by omega
      subst this
      simp only [List.getElem?_cons_zero, Option.some.injEq] at hp
      subst hp
      simp [regenParts]
    | cons r ps' =>
      cases i with
      | zero =>
        simp only [List.length_cons] at hi
        omega
      | succ j =>
        simp only [List.getElem?_cons_succ] at hp
        simp only [List.length_cons] at hi
        have hj : j + 1 = (r :: ps').length := by
          simp only [List.length_cons]; omega
        have := ih j hp hj
        simpa [regenParts] using this

theorem processMid_ext (m m2 : List (String × String))
    (h : ∀ k, alookup m k = alookup m2 k) (part : String) :
    processMid m part = processMid m2 part := by
  unfold processMid
  cases hs : lastZSplit part.toList with
  | none => rfl
  | some pr => simp [h]

theorem regenParts_ext (m m2 : List (String × String)) (nid : String)
    (h : ∀ k, alookup m k = alookup m2 k) (ps : List String) :
    regenParts m nid ps = regenParts m2 nid ps := by
  induction ps with
  | nil => rfl
  | cons p ps ih =>
    cases ps with
    | nil => rfl
    | cons q ps' =>
      simp only [regenParts] at ih ⊢
      rw [processMid_ext m m2 h p, ih]

/-- Concrete sanity check of the embedding. -/
example :
    regenerateDottedOrder (some "T1Za.T2Zb") [("a", "x")] "n" = some "T1Zx.T2Zn" := by
  decide

/-- Claim C2: for every non-empty `dotted_order` string and every ID map,
`_regenerate_dotted_order` rewrites each well-formed dot-separated
`{timestamp}Z{uuid}` segment except the last by replacing the UUID after the
final `Z` with its image under the map (unchanged when unmapped), and always
substitutes the supplied new run id into the last segment; the output depends
only on the lookup behaviour of the map (determinism). -/
theorem C2_regenerate_dotted_order (s : String) (m m2 : List (String × String))
    (nid : String) (hs : s ≠ "") :
    ∃ out : List String,
      regenerateDottedOrder (some s) m nid = some (String.intercalate "." out) ∧
      out.length = (splitDots s).length ∧
      (∀ i t0 u, (splitDots s)[i]? = some (String.mk (t0 ++ 'Z' :: u)) →
        'Z' ∉ u → u ≠ [] → i + 1 < (splitDots s).length →
        out[i]? = some (String.mk (t0 ++ ['Z'])
          ++ ((alookup m (String.mk u)).getD (String.mk u)))) ∧
      (∀ i t0 u, (splitDots s)[i]? = some (String.mk (t0 ++ 'Z' :: u)) →
        'Z' ∉ u → u ≠ [] → i + 1 = (splitDots s).length →
        out[i]? = some (String.mk (t0 ++ ['Z']) ++ nid)) ∧
      ((∀ k, alookup m k = alookup m2 k) →
        regenerateDottedOrder (some s) m nid
          = regenerateDottedOrder (some s) m2 nid) := by
  refine ⟨regenParts m nid (splitDots s), ?_, regenParts_length m nid _, ?_, ?_, ?_⟩
  · simp [regenerateDottedOrder, hs]
  · intro i t0 u hp hz hne hi
    have h := regenParts_get_mid m nid (splitDots s) _ i hp hi
    rw [processMid_wf m t0 u hz hne] at h
    exact h
  · intro i t0 u hp hz hne hi
    have h := regenParts_get_last m nid (splitDots s) _ i hp hi
    rw [processLast_wf nid t0 u hz hne] at h
    exact h
  · intro hk
    simp [regenerateDottedOrder, hs, regenParts_ext m m2 nid hk]

/-- Witness for C2 at a concrete dotted order, map and new run id. -/
theorem C2_regenerate_dotted_order_witness :
    ∃ out : List String,
      regenerateDottedOrder (some "T1Za.T2Zb") [("a", "x")] "n"
        = some (String.intercalate "." out) ∧
      out.length = (splitDots "T1Za.T2Zb").length ∧
      (∀ i t0 u, (splitDots "T1Za.T2Zb")[i]? = some (String.mk (t0 ++ 'Z' :: u)) →
        'Z' ∉ u → u ≠ [] → i + 1 < (splitDots "T1Za.T2Zb").length →
        out[i]? = some (String.mk (t0 ++ ['Z'])
          ++ ((alookup [("a", "x")] (String.mk u)).getD (String.mk u)))) ∧
      (∀ i t0 u, (splitDots "T1Za.T2Zb")[i]? = some (String.mk (t0 ++ 'Z' :: u)) →
        'Z' ∉ u → u ≠ [] → i + 1 = (splitDots "T1Za.T2Zb").length →
        out[i]? = some (String.mk (t0 ++ ['Z']) ++ "n")) ∧
      ((∀ k, alookup [("a", "x")] k = alookup [("a", "x")] k) →
        regenerateDottedOrder (some "T1Za.T2Zb") [("a", "x")] "n"
          = regenerateDottedOrder (some "T1Za.T2Zb") [("a", "x")] "n") :=
  C2_regenerate_dotted_order "T1Za.T2Zb" [("a", "x")] [("a", "x")] "n" (by decide)

/-! ## `DatasetMigrator.find_existing_dataset`
(`langsmith_migrator/core/migrators/dataset.py`)

`GET /datasets?name=...` is issued; a `NotFoundError` is caught and treated
as "no match".  A non-list response body is replaced by `[]`.  With exactly
one match the first element's `id` is returned if it is a dict; with more
than one match a warning is logged and the function falls through to
`return None`. -/

/-- An element of the datasets list: a JSON object with an optional `id`
field, or a non-object element. -/
inductive DsEntry where
  | ddict (dsId : Option String)
  | dother
deriving DecidableEq, Repr

/-- The decoded response of the datasets query: a JSON array or any other
shape. -/
inductive DsResp where
  | rlist (ds : List DsEntry)
  | rnonlist
deriving DecidableEq, Repr

/-- `DatasetMigrator.find_existing_dataset`.  The input is `none` when the
GET raised `NotFoundError` (caught by the function).  Returns the found
destination id together with a flag recording whether the
multiple-matches warning was logged. -/
def findExistingDataset : Option DsResp → Option String × Bool
  | none => (none, false)
  | some .rnonlist => (none, false)
  | some (.rlist ds) =>
    match ds with
    | [] => (none, false)
    | [DsEntry.ddict i] => (i, false)
    | [DsEntry.dother] => (none, false)
    | _ :: _ :: _ => (none, true)

/-- Claim C9 (counterexample): with two destination datasets of the queried
name, `find_existing_dataset` does NOT return the first match: it returns
`None` (while logging the warning), so the caller treats the dataset as
absent. -/
theorem C9_find_existing_dataset_counterexample :
    findExistingDataset
        (some (DsResp.rlist [DsEntry.ddict (some "d1"), DsEntry.ddict (some "d2")]))
      = (none, true) ∧
    (none : Option String) ≠ some "d1" := by
  exact ⟨rfl, by decide⟩

/-- Claim C9 (amended): when the destination holds more than one dataset
with the queried name, `find_existing_dataset` emits the warning (not a
fatal error) and returns no match at all, so the upsert proceeds as if the
dataset did not exist (creating a new one) rather than updating the first
match. -/
theorem C9_find_existing_dataset_multi (ds : List DsEntry) (h : 2 ≤ ds.length) :
    findExistingDataset (some (DsResp.rlist ds)) = (none, true) := by
  match ds, h with
  | d1 :: d2 :: rest, _ => cases d1 <;> rfl

/-- Witness for the amended C9 statement at a concrete two-element list. -/
theorem C9_find_existing_dataset_multi_witness :
    findExistingDataset
        (some (DsResp.rlist [DsEntry.ddict (some "a"), DsEntry.dother]))
      = (none, true) :=
  C9_find_existing_dataset_multi [DsEntry.ddict (some "a"), DsEntry.dother]
    (by decide)

/-! ## `retry_on_failure` (`langsmith_migrator/utils/retry.py`)

The decorator wraps a call in a `for attempt in range(max_retries)` loop.
The wrapped call's behaviour on each attempt is modelled by an oracle
`Nat → ROutcome α`.  The repository always uses the decorator's default
`delay=1.0, backoff=2.0` (calls pass only `max_retries`), so those
constants appear literally below, exactly as the defaults do at every call
site; all arithmetic is over `ℚ` (Python floats at these magnitudes are
exact).  The model returns the final outcome together with the list of
`time.sleep` durations, in order. -/

/-- Outcome of one attempt of the wrapped function.
`rateLimited` carries the parsed `Retry-After` value (`e.retry_after`);
`apiErr` carries `e.status_code` (`none` models `None`). -/
inductive ROutcome (α : Type) where
  | ok (v : α)
  | rateLimited (retryAfter : Option ℚ)
  | authErr
  | conflictErr
  | apiErr (statusCode : Option Int)
  | netErr

/-- The exception remembered in `last_exception`. -/
inductive LastErr where
  | rl (retryAfter : Option ℚ)
  | api (statusCode : Option Int)
  | net
deriving DecidableEq, Repr

/-- How the wrapper terminates. -/
inductive RetryOutcome (α : Type) where
  | value (v : α)
  | raisedAuth
  | raisedConflict
  | raisedApi (statusCode : Option Int)
  | exhausted (last : Option LastErr)

/-- Python truthiness of `e.status_code and e.status_code >= 500`. -/
def isServerErr : Option Int → Bool
  | none => false
  | some c => !(c == 0) && (500 ≤ c)

/-- Python's builtin `min` on floats, modelled executably over `ℚ`. -/
def pymin (a b : ℚ) : ℚ := if a ≤ b then a else b

theorem pymin_eq_min (a b : ℚ) : pymin a b = min a b := by
  rw [pymin, min_def]

/-- The retry loop of `retry_on_failure` with `delay=1`, `backoff=2`,
`MAX_BACKOFF_SECONDS=60`.  `remaining` counts loop iterations left,
`attempt` is the Python loop index, `cur` is `current_delay`. -/
def retryAux {α : Type} (oc : Nat → ROutcome α) (maxR : Nat) :
    Nat → Nat → ℚ → Option LastErr → RetryOutcome α × List ℚ
  | 0, _, _, last => (.exhausted last, [])
  | r + 1, attempt, cur, _ =>
    match oc attempt with
    | .ok v => (.value v, [])
    | .authErr => (.raisedAuth, [])
    | .conflictErr => (.raisedConflict, [])
    | .rateLimited ra =>
      let wait :=
        match ra with
        | some x => if x = 0 then pymin (cur * 2) 60 else pymin x 60
        | none => pymin (cur * 2) 60
      let rest := retryAux oc maxR r (attempt + 1) (pymin (cur * 2) 60) (some (.rl ra))
      (rest.1, wait :: rest.2)
    | .apiErr status =>
      if isServerErr status then
        if attempt + 1 < maxR then
          let rest := retryAux oc maxR r (attempt + 1) (pymin (cur * 2) 60) (some (.api status))
          (rest.1, pymin cur 60 :: rest.2)
        else retryAux oc maxR r (attempt + 1) cur (some (.api status))
      else (.raisedApi status, [])
    | .netErr =>
      if attempt + 1 < maxR then
        let rest := retryAux oc maxR r (attempt + 1) (pymin (cur * 2) 60) (some .net)
        (rest.1, pymin cur 60 :: rest.2)
      else retryAux oc maxR r (attempt + 1) cur (some .net)

/-- `retry_on_failure(max_retries=maxR)` applied to a call whose per-attempt
behaviour is `oc`: final outcome and the list of sleeps. -/
def retryOnFailure {α : Type} (oc : Nat → ROutcome α) (maxR : Nat) :
    RetryOutcome α × List ℚ :=
  retryAux oc maxR maxR 0 1 none

/-- A call that is rate limited with no `Retry-After` hint on every attempt. -/
def alwaysRateLimited : Nat → ROutcome Unit := fun _ => .rateLimited none

/-- The wait the code computes for a rate-limited attempt at index
`attemptIdx`: the capped hint when a nonzero hint is present, otherwise the
capped exponential value `min(2^(attemptIdx+1), 60)`. -/
def rlWait (attemptIdx : Nat) (ra : Option ℚ) : ℚ :=
  match ra with
  | some x => if x = 0 then pymin ((2:ℚ)^(attemptIdx + 1)) 60 else pymin x 60
  | none => pymin ((2:ℚ)^(attemptIdx + 1)) 60

theorem minPowStep (a : Nat) :
    pymin (pymin ((2:ℚ)^a) 60 * 2) 60 = pymin ((2:ℚ)^(a+1)) 60 := by
  rw [pymin_eq_min, pymin_eq_min, pymin_eq_min]
  rcases le_total ((2:ℚ)^a) 60 with h | h
  · rw [min_eq_left h, pow_succ]
  · rw [min_eq_right h]
    have h1 : (60:ℚ) ≤ 2^(a+1) := by
      calc (60:ℚ) ≤ 2^a := h
        _ ≤ 2^(a+1) := by
            rw [pow_succ]
            nlinarith [pow_pos (show (0:ℚ) < 2 by norm_num) a]
    rw [min_eq_right h1]
    norm_num

theorem retryAux_rl_waits {α : Type} (oc : Nat → ROutcome α) (maxR : Nat) :
    ∀ (r attempt : Nat) (last : Option LastErr) (j : Nat) (ra : Option ℚ),
      r + attempt = maxR →
      oc (attempt + j) = .rateLimited ra →
      j < ((retryAux oc maxR r attempt (pymin ((2:ℚ)^attempt) 60) last).2).length →
      ((retryAux oc maxR r attempt (pymin ((2:ℚ)^attempt) 60) last).2)[j]? =
        some (rlWait (attempt + j) ra) := by
  intro r
  induction r with
  | zero =>
    intro attempt last j ra _ _ hj
    simp [retryAux] at hj
  | succ r ih =>
    intro attempt last j ra hinv hoc hj
    cases hoca : oc attempt with
    | ok v => simp [retryAux, hoca] at hj
    | authErr => simp [retryAux, hoca] at hj
    | conflictErr => simp [retryAux, hoca] at hj
    | rateLimited ra' =>
      cases j with
      | zero =>
        have : ra' = ra := by
          rw [Nat.add_zero] at hoc
          rw [hoca] at hoc
          exact (ROutcome.rateLimited.inj hoc)
        subst this
        simp only [retryAux, hoca, List.getElem?_cons_zero, Option.some.injEq]
        cases ra' with
        | none => simp [rlWait, minPowStep attempt, Nat.add_zero]
        | some x =>
          by_cases hx : x = 0
          · simp [rlWait, hx, minPowStep attempt, Nat.add_zero]
          · simp [rlWait, hx]
      | succ j =>
        have hinv' : r + (attempt + 1) = maxR := by omega
        have hoc' : oc ((attempt + 1) + j) = .rateLimited ra := by
          rw [show (attempt + 1) + j = attempt + (j + 1) by omega]
          exact hoc
        simp only [retryAux, hoca, List.length_cons, Nat.add_lt_add_iff_right] at hj
        rw [minPowStep attempt] at hj
        have := ih (attempt + 1) (some (.rl ra')) j ra hinv' hoc' hj
        simp only [retryAux, hoca, List.getElem?_cons_succ]
        rw [minPowStep attempt]
        rw [this]
        rw [show attempt + 1 + j = attempt + (j + 1) from by omega]
    | apiErr status =>
      by_cases hsv : isServerErr status = true
      · by_cases hlt : attempt + 1 < maxR
        · cases j with
          | zero =>
            rw [Nat.add_zero, hoca] at hoc
            cases hoc
          | succ j =>
            have hinv' : r + (attempt + 1) = maxR := by omega
            have hoc' : oc ((attempt + 1) + j) = .rateLimited ra := by
              rw [show (attempt + 1) + j = attempt + (j + 1) by omega]
              exact hoc
            simp only [retryAux, hoca, hsv, if_true, hlt, List.length_cons,
              Nat.add_lt_add_iff_right] at hj
            rw [minPowStep attempt] at hj
            have := ih (attempt + 1) (some (.api status)) j ra hinv' hoc' hj
            simp only [retryAux, hoca, hsv, if_true, hlt, List.getElem?_cons_succ]
            rw [minPowStep attempt]
            rw [this]
            rw [show attempt + 1 + j = attempt + (j + 1) from by omega]
        · have hr : r = 0 := by omega
          subst hr
          simp [retryAux, hoca, hsv, hlt] at hj
      · simp [retryAux, hoca, hsv] at hj
    | netErr =>
      by_cases hlt : attempt + 1 < maxR
      · cases j with
        | zero =>
          rw [Nat.add_zero, hoca] at hoc
          cases hoc
        | succ j =>
          have hinv' : r + (attempt + 1) = maxR := by omega
          have hoc' : oc ((attempt + 1) + j) = .rateLimited ra := by
            rw [show (attempt + 1) + j = attempt + (j + 1) by omega]
            exact hoc
          simp only [retryAux, hoca, hlt, if_true, List.length_cons,
            Nat.add_lt_add_iff_right] at hj
          rw [minPowStep attempt] at hj
          have := ih (attempt + 1) (some .net) j ra hinv' hoc' hj
          simp only [retryAux, hoca, hlt, if_true, List.getElem?_cons_succ]
          rw [minPowStep attempt]
          rw [this]
          rw [show attempt + 1 + j = attempt + (j + 1) from by omega]
      · have hr : r = 0 := by omega
        subst hr
        simp [retryAux, hoca, hlt] at hj

example : pymin (3:ℚ) 60 = 3 := by decide

/-- Claim C6 (counterexample): with the default `delay=1`, a call that is
rate limited without a `Retry-After` hint on every attempt
(`max_retries=3`) sleeps `[2, 4, 8]` seconds — the first wait is
`min(current_delay * 2, 60) = 2` seconds, not the 1-second initial delay
claimed (the claimed sequence would be `[1, 2, 4]`). -/
theorem C6_retry_counterexample :
    (retryOnFailure alwaysRateLimited 3).2 = [2, 4, 8] ∧
    ([2, 4, 8] : List ℚ) ≠ [1, 2, 4] := by
  constructor
  · simp only [retryOnFailure, retryAux, alwaysRateLimited, pymin]
    norm_num
  · simp only [ne_eq, List.cons.injEq]
    norm_num

/-- Claim C6 (amended): in `retry_on_failure` (defaults `delay=1`,
`backoff=2`, cap 60s), a rate-limited attempt with a nonzero numeric
`Retry-After` hint `x` sleeps exactly `min(x, 60)`; a rate-limited attempt
with no hint — or a hint of `0`, which Python float truthiness treats as
absent — sleeps `min(2^(k+1), 60)` where `k` is the attempt index: the
no-hint waits start at 2 seconds and double, capped at 60 per wait. -/
theorem C6_retry_waits {α : Type} (oc : Nat → ROutcome α) (maxR j : Nat)
    (ra : Option ℚ) (hoc : oc j = .rateLimited ra)
    (hj : j < ((retryOnFailure oc maxR).2).length) :
    ((retryOnFailure oc maxR).2)[j]? = some (rlWait j ra) := by
  have h0 : (1:ℚ) = pymin ((2:ℚ)^(0:Nat)) 60 := by
    rw [pymin_eq_min]
    norm_num
  have hoc0 : oc (0 + j) = .rateLimited ra := by simpa using hoc
  have hmain := retryAux_rl_waits oc maxR maxR 0 none j ra (by omega) hoc0
  rw [← h0] at hmain
  have hres := hmain (by simpa [retryOnFailure] using hj)
  simpa [retryOnFailure] using hres

/-- A call rate limited with a (large) hint on attempt 0 and without a hint
afterwards. -/
def hintOracle : Nat → ROutcome Unit :=
  fun n => if n = 0 then .rateLimited (some 100) else .rateLimited none

/-- Witness for C6 at a concrete oracle: the hinted wait is
`min(100, 60) = 60`. -/
theorem C6_retry_waits_witness :
    ((retryOnFailure hintOracle 2).2)[0]? = some (60:ℚ) := by
  have h := C6_retry_waits hintOracle 2 0 (some 100) rfl (by decide)
  rw [h]
  decide

/-! ## `PaginationHelper.paginate` (`langsmith_migrator/utils/pagination.py`)

The server is modelled as a function from offset to response; `none` means
the fetch raised (any `Exception`, caught by the bare `except`).  Items can
be `null` (skipped) or JSON objects whose identity fields drive the
duplicate guard. -/

/-- A paginated item: an object with the three identity fields the
duplicate guard inspects (`id`, `_id`, `uuid`). -/
structure PItem where
  idField : Option String
  altIdField : Option String
  uuidField : Option String
deriving DecidableEq, Repr

/-- Python `a or b` on optional strings: the first truthy value, else `b`. -/
def pyOr (a b : Option String) : Option String :=
  if truthy a then a else b

/-- `item.get('id') or item.get('_id') or item.get('uuid')`. -/
def itemKey (it : PItem) : Option String :=
  pyOr it.idField (pyOr it.altIdField it.uuidField)

/-- The decoded response body, as classified by
`PaginationHelper._extract_items`. -/
inductive PageResp where
  | plist (xs : List (Option PItem))
  | pobjList (xs : List (Option PItem))
  | pobjSelf (it : PItem)
  | pother
deriving Repr

/-- `PaginationHelper._extract_items`: a bare array or an `items`/`data`/
`results` list is used as-is; an object with no such list field becomes a
single-element page containing the object; any other shape yields `[]`. -/
def extractItems : PageResp → List (Option PItem)
  | .plist xs => xs
  | .pobjList xs => xs
  | .pobjSelf it => [some it]
  | .pother => []

/-- The inner `for item in items` loop: skip `None` items, skip items whose
truthy key was already seen, record truthy keys, yield the rest.  Returns
the yielded items and the updated seen-set. -/
def processItems : List (Option PItem) → List String → List PItem × List String
  | [], seen => ([], seen)
  | none :: rest, seen => processItems rest seen
  | some it :: rest, seen =>
    match itemKey it with
    | some s =>
      if s ≠ "" ∧ s ∈ seen then processItems rest seen
      else
        let seen' := if s = "" then seen else s :: seen
        let r := processItems rest seen'
        (it :: r.1, r.2)
    | none =>
      let r := processItems rest seen
      (it :: r.1, r.2)

/-- The `while iterations < max_iterations` loop of
`PaginationHelper.paginate`: returns the yielded items together with the
number of page requests issued.  `fuel` is `max_iterations - iterations`. -/
def paginateAux (fetch : Nat → Option PageResp) (limit : Nat) :
    Nat → Nat → List String → List PItem × Nat
  | 0, _, _ => ([], 0)
  | fuel + 1, offset, seen =>
    match fetch offset with
    | none => ([], 1)
    | some resp =>
      let items := extractItems resp
      if items.isEmpty then ([], 1)
      else
        let pr := processItems items seen
        if pr.1.isEmpty then (pr.1, 1)
        else if items.length < limit then (pr.1, 1)
        else
          let rest := paginateAux fetch limit fuel (offset + items.length) pr.2
          (pr.1 ++ rest.1, 1 + rest.2)

/-- `PaginationHelper.paginate(fetch_fn, endpoint, params, page_size)`:
`max_iterations = 10000`, starting offset 0, empty seen-set. -/
def paginate (fetch : Nat → Option PageResp) (limit : Nat) : List PItem × Nat :=
  paginateAux fetch limit 10000 0 []

theorem paginateAux_count_le_fuel (fetch : Nat → Option PageResp)
    (limit : Nat) :
    ∀ fuel offset seen, (paginateAux fetch limit fuel offset seen).2 ≤ fuel := by
  intro fuel
  induction fuel with
  | zero => intro offset seen; simp [paginateAux]
  | succ fuel ih =>
    intro offset seen
    cases hf : fetch offset with
    | none => simp [paginateAux, hf]
    | some resp =>
      by_cases hempty : (extractItems resp).isEmpty
      · simp [paginateAux, hf, hempty]
      · by_cases hnew : (processItems (extractItems resp) seen).1.isEmpty
        · simp [paginateAux, hf, hempty, hnew]
        · by_cases hshort : (extractItems resp).length < limit
          · simp [paginateAux, hf, hempty, hnew, hshort]
          · have := ih (offset + (extractItems resp).length)
              (processItems (extractItems resp) seen).2
            simp only [paginateAux, hf, hempty, hnew, hshort, if_false,
              Bool.false_eq_true]
            omega

/-- Claim C5: pagination issues at most 10000 page requests, and each of
the stopping conditions — a failed fetch, an empty page, a page yielding no
new items, a short page — ends the loop after that single request. -/
theorem C5_pagination_terminates (fetch : Nat → Option PageResp) (limit : Nat) :
    (paginate fetch limit).2 ≤ 10000 ∧
    (∀ fuel offset seen, fetch offset = none →
        paginateAux fetch limit (fuel + 1) offset seen = ([], 1)) ∧
    (∀ fuel offset seen resp, fetch offset = some resp →
        extractItems resp = [] →
        (paginateAux fetch limit (fuel + 1) offset seen).2 = 1) ∧
    (∀ fuel offset seen resp, fetch offset = some resp →
        (processItems (extractItems resp) seen).1 = [] →
        (paginateAux fetch limit (fuel + 1) offset seen).2 = 1) ∧
    (∀ fuel offset seen resp, fetch offset = some resp →
        (extractItems resp).length < limit →
        (paginateAux fetch limit (fuel + 1) offset seen).2 = 1) := by
  refine ⟨paginateAux_count_le_fuel fetch limit 10000 0 [], ?_, ?_, ?_, ?_⟩
  · intro fuel offset seen hf
    simp [paginateAux, hf]
  · intro fuel offset seen resp hf hempty
    simp [paginateAux, hf, hempty]
  · intro fuel offset seen resp hf hnew
    by_cases hempty : (extractItems resp).isEmpty
    · simp [paginateAux, hf, hempty]
    · simp [paginateAux, hf, hempty, hnew]
  · intro fuel offset seen resp hf hshort
    by_cases hempty : (extractItems resp).isEmpty
    · simp [paginateAux, hf, hempty]
    · by_cases hnew : (processItems (extractItems resp) seen).1.isEmpty
      · simp [paginateAux, hf, hempty, hnew]
      · simp [paginateAux, hf, hempty, hnew, hshort]

/-- A server that always fails. -/
def failFetch : Nat → Option PageResp := fun _ => none

/-- Witness for C5 at a concrete failing server. -/
theorem C5_pagination_terminates_witness :
    (paginate failFetch 2).2 ≤ 10000 ∧
    paginateAux failFetch 2 (0 + 1) 5 [] = ([], 1) :=
  ⟨(C5_pagination_terminates failFetch 2).1,
   (C5_pagination_terminates failFetch 2).2.1 0 5 [] rfl⟩

/-- A server identical to `fetch` except that the request at offset
`errOffset` raises. -/
def cutoffAt (fetch : Nat → Option PageResp) (errOffset : Nat) :
    Nat → Option PageResp :=
  fun o => if o = errOffset then none else fetch o

theorem paginateAux_cutoff_prefix (fetch : Nat → Option PageResp)
    (limit errOffset : Nat) :
    ∀ fuel offset seen, ∃ tail,
      (paginateAux fetch limit fuel offset seen).1
        = (paginateAux (cutoffAt fetch errOffset) limit fuel offset seen).1
          ++ tail := by
  intro fuel
  induction fuel with
  | zero =>
    intro offset seen
    exact ⟨[], by simp [paginateAux]⟩
  | succ fuel ih =>
    intro offset seen
    by_cases he : offset = errOffset
    · refine ⟨(paginateAux fetch limit (fuel + 1) offset seen).1, ?_⟩
      have hcut : cutoffAt fetch errOffset offset = none := by
        simp [cutoffAt, he]
      simp [paginateAux, hcut]
    · have hcut : cutoffAt fetch errOffset offset = fetch offset := by
        simp [cutoffAt, he]
      cases hf : fetch offset with
      | none => exact ⟨[], by simp [paginateAux, hcut, hf]⟩
      | some resp =>
        by_cases hempty : (extractItems resp).isEmpty
        · exact ⟨[], by simp [paginateAux, hcut, hf, hempty]⟩
        · by_cases hnew : (processItems (extractItems resp) seen).1.isEmpty
          · exact ⟨[], by simp [paginateAux, hcut, hf, hempty, hnew]⟩
          · by_cases hshort : (extractItems resp).length < limit
            · exact ⟨[], by simp [paginateAux, hcut, hf, hempty, hnew, hshort]⟩
            · obtain ⟨tail, htail⟩ := ih (offset + (extractItems resp).length)
                (processItems (extractItems resp) seen).2
              refine ⟨tail, ?_⟩
              simp only [paginateAux, hcut, hf, hempty, hnew, hshort, if_false,
                Bool.false_eq_true]
              rw [htail, List.append_assoc]

/-- Claim C10: `paginate` never propagates an error raised by the fetch
function (the model of `paginate` is total).  An error at the current
offset ends the stream at once with no further items, and for any server
the stream of a copy that fails at some offset is a prefix of the original
stream: exactly the items obtained before the error are yielded. -/
theorem C10_pagination_error_silent (fetch : Nat → Option PageResp)
    (limit errOffset fuel offset : Nat) (seen : List String) :
    (fetch offset = none →
      paginateAux fetch limit (fuel + 1) offset seen = ([], 1)) ∧
    (∃ tail,
      (paginateAux fetch limit fuel offset seen).1
        = (paginateAux (cutoffAt fetch errOffset) limit fuel offset seen).1
          ++ tail) := by
  constructor
  · intro hf
    simp [paginateAux, hf]
  · exact paginateAux_cutoff_prefix fetch limit errOffset fuel offset seen

/-- Witness for C10 at a concrete failing server and offset. -/
theorem C10_pagination_error_silent_witness :
    paginateAux failFetch 3 (0 + 1) 7 [] = ([], 1) ∧
    (∃ tail,
      (paginateAux failFetch 3 2 0 []).1
        = (paginateAux (cutoffAt failFetch 0) 3 2 0 []).1 ++ tail) :=
  ⟨(C10_pagination_error_silent failFetch 3 0 0 7 []).1 rfl,
   (C10_pagination_error_silent failFetch 3 0 2 0 []).2⟩

/-! ## `_post_batch_recursive` and `BatchResult`
(`langsmith_migrator/core/api_client.py`)

The server is an oracle `post : List Item → PostOutcome Resp` giving, for
each posted batch, either a decoded success body or the caught exception
(`ConflictError` / other `APIError`), with `msg` the `str(e)` text.  The
`BatchResult` object's items are modelled as the list of per-item records
in the order they are appended; `get_responses` sorts them by
`item_index`. -/

/-- The decoded body of a successful batch POST: a per-item list (possibly
containing nulls), a single object (assumed to cover all items), or any
other shape (replaced by `{}` per item). -/
inductive BatchResp (Resp : Type) where
  | rlist (rs : List (Option Resp))
  | rdict (r : Resp)
  | rother

/-- Outcome of `self.post(endpoint, items)` as seen by
`_post_batch_recursive`: success, `ConflictError`, or another `APIError`. -/
inductive PostOutcome (Resp : Type) where
  | ok (resp : BatchResp Resp)
  | conflictErr (msg : String)
  | apiErr (msg : String)

/-- `BatchItemResult` (`api_client.py`). -/
structure BatchItemResult (Resp : Type) where
  success : Bool
  data : Option Resp
  error : Option String
  itemIndex : Nat

/-- The `for i, resp in enumerate(responses)` loop: `None` entries become
per-item failures with the fixed message, other entries successes. -/
def recordResponses {Resp : Type} :
    List (Option Resp) → Nat → List (BatchItemResult Resp)
  | [], _ => []
  | some r :: rest, i => ⟨true, some r, none, i⟩ :: recordResponses rest (i + 1)
  | none :: rest, i =>
    ⟨false, none, some "Empty response from API", i⟩ :: recordResponses rest (i + 1)

/-- Normalisation of a successful response: a list is used as-is, a dict is
replicated once per item, any other shape is replaced by one `{}`
(`emptyObj`) per item. -/
def successResults {Item Resp : Type} (emptyObj : Resp) :
    BatchResp Resp → List Item → Nat → List (BatchItemResult Resp)
  | .rlist rs, _, start => recordResponses rs start
  | .rdict r, items, start =>
    recordResponses (List.replicate items.length (some r)) start
  | .rother, items, start =>
    recordResponses (List.replicate items.length (some emptyObj)) start

/-- `EnhancedAPIClient._post_batch_recursive`: post the whole batch; on a
`ConflictError` or `APIError` with more than one item, split in half and
retry each half; with a single item record a per-item failure. -/
def postBatchRecursive {Item Resp : Type} (post : List Item → PostOutcome Resp)
    (emptyObj : Resp) (items : List Item) (start : Nat) :
    List (BatchItemResult Resp) :=
  if h1 : items.isEmpty then []
  else
    match post items with
    | .ok shape => successResults emptyObj shape items start
    | .conflictErr msg =>
      if h2 : items.length = 1 then
        [⟨false, none, some ("Conflict: " ++ msg), start⟩]
      else
        postBatchRecursive post emptyObj (items.take (items.length / 2)) start
          ++ postBatchRecursive post emptyObj (items.drop (items.length / 2))
              (start + items.length / 2)
    | .apiErr msg =>
      if h2 : items.length = 1 then
        [⟨false, none, some msg, start⟩]
      else
        postBatchRecursive post emptyObj (items.take (items.length / 2)) start
          ++ postBatchRecursive post emptyObj (items.drop (items.length / 2))
              (start + items.length / 2)
termination_by items.length
decreasing_by
  all_goals
    have hne : items ≠ [] := by simpa using h1
    have hpos : 0 < items.length := List.length_pos.mpr hne
    simp only [List.length_take, List.length_drop]
    omega

/-- The per-slot contract of a batch result entry: a success carrying a
body, or a failure carrying a non-empty error string. -/
def slotOk {Resp : Type} (b : BatchItemResult Resp) : Prop :=
  (b.success = true ∧ ∃ r, b.data = some r) ∨
  (b.success = false ∧ ∃ e, b.error = some e ∧ e ≠ "")

theorem recordResponses_length {Resp : Type} (rs : List (Option Resp)) :
    ∀ start, (recordResponses rs start).length = rs.length := by
  induction rs with
  | nil => intro start; rfl
  | cons r rest ih =>
    intro start
    cases r with
    | some v => simp [recordResponses, ih]
    | none => simp [recordResponses, ih]

theorem recordResponses_get {Resp : Type} (rs : List (Option Resp)) :
    ∀ start k, k < rs.length →
      ∃ b, (recordResponses rs start)[k]? = some b ∧
        b.itemIndex = start + k ∧ slotOk b := by
  induction rs with
  | nil => intro start k hk; simp at hk
  | cons r rest ih =>
    intro start k hk
    cases k with
    | zero =>
      cases r with
      | some v =>
        refine ⟨⟨true, some v, none, start⟩, by simp [recordResponses], by simp,
          Or.inl ⟨rfl, v, rfl⟩⟩
      | none =>
        refine ⟨⟨false, none, some "Empty response from API", start⟩,
          by simp [recordResponses], by simp,
          Or.inr ⟨rfl, "Empty response from API", rfl, by decide⟩⟩
    | succ j =>
      simp only [List.length_cons, Nat.add_lt_add_iff_right] at hk
      obtain ⟨b, hb, hidx, hok⟩ := ih (start + 1) j hk
      refine ⟨b, ?_, by omega, hok⟩
      cases r with
      | some v => simpa [recordResponses] using hb
      | none => simpa [recordResponses] using hb

theorem conflictMsg_ne_empty (msg : String) : ("Conflict: " ++ msg) ≠ "" := by
  intro h
  have hd : "Conflict: ".data ++ msg.data = ([] : List Char) :=
    congrArg String.data h
  simp at hd

theorem postBatch_spec {Item Resp : Type} (post : List Item → PostOutcome Resp)
    (emptyObj : Resp)
    (hlen : ∀ its rs, post its = .ok (.rlist rs) → rs.length = its.length)
    (hmsg : ∀ its msg, post its = .apiErr msg → msg ≠ "") :
    ∀ n (items : List Item) start, items.length ≤ n →
      (postBatchRecursive post emptyObj items start).length = items.length ∧
      (∀ k, k < items.length →
        ∃ b, (postBatchRecursive post emptyObj items start)[k]? = some b ∧
          b.itemIndex = start + k ∧ slotOk b) := by
  intro n
  induction n with
  | zero =>
    intro items start hle
    have hnil : items = [] := List.length_eq_zero.mp (by omega)
    subst hnil
    refine ⟨by simp [postBatchRecursive], ?_⟩
    intro k hk
    simp at hk
  | succ n ih =>
    intro items start hle
    by_cases hempty : items.isEmpty
    · have hnil : items = [] := by simpa using hempty
      subst hnil
      refine ⟨by simp [postBatchRecursive], ?_⟩
      intro k hk
      simp at hk
    · have hne : items ≠ [] := by simpa using hempty
      have hpos : 0 < items.length := List.length_pos.mpr hne
      cases hpost : post items with
      | ok shape =>
        rw [postBatchRecursive]
        simp only [hempty, Bool.false_eq_true, dite_false, hpost]
        cases shape with
        | rlist rs =>
          have hrs : rs.length = items.length := hlen items rs hpost
          constructor
          · simp [successResults, recordResponses_length, hrs]
          · intro k hk
            have := recordResponses_get rs start k (by omega)
            simpa [successResults] using this
        | rdict r =>
          constructor
          · simp [successResults, recordResponses_length]
          · intro k hk
            have := recordResponses_get (List.replicate items.length (some r))
              start k (by simpa using hk)
            simpa [successResults] using this
        | rother =>
          constructor
          · simp [successResults, recordResponses_length]
          · intro k hk
            have := recordResponses_get
              (List.replicate items.length (some emptyObj)) start k
              (by simpa using hk)
            simpa [successResults] using this
      | conflictErr msg =>
        by_cases hone : items.length = 1
        · rw [postBatchRecursive]
          simp only [hempty, Bool.false_eq_true, dite_false, hpost, hone,
            dite_true]
          refine ⟨by simp [hone], ?_⟩
          intro k hk
          have hk0 : k = 0 := by omega
          subst hk0
          exact ⟨⟨false, none, some ("Conflict: " ++ msg), start⟩, rfl, by simp,
            Or.inr ⟨rfl, _, rfl, conflictMsg_ne_empty msg⟩⟩
        · have h2 : 2 ≤ items.length := by omega
          have hlef := ih (items.take (items.length / 2)) start
            (by simp only [List.length_take]; omega)
          have hrig := ih (items.drop (items.length / 2))
            (start + items.length / 2)
            (by simp only [List.length_drop]; omega)
          rw [postBatchRecursive]
          simp only [hempty, Bool.false_eq_true, dite_false, hpost, hone]
          have hlenl : (postBatchRecursive post emptyObj
              (items.take (items.length / 2)) start).length
              = items.length / 2 := by
            rw [hlef.1]; simp only [List.length_take]; omega
          have hlenr : (postBatchRecursive post emptyObj
              (items.drop (items.length / 2))
              (start + items.length / 2)).length
              = items.length - items.length / 2 := by
            rw [hrig.1]; simp only [List.length_drop]
          constructor
          · simp only [List.length_append, hlenl, hlenr]; omega
          · intro k hk
            by_cases hkl : k < items.length / 2
            · obtain ⟨b, hb, hidx, hok⟩ := hlef.2 k
                (by simp only [List.length_take]; omega)
              refine ⟨b, ?_, hidx, hok⟩
              rw [List.getElem?_append, hlenl, if_pos hkl]
              exact hb
            · obtain ⟨b, hb, hidx, hok⟩ := hrig.2 (k - items.length / 2)
                (by simp only [List.length_drop]; omega)
              refine ⟨b, ?_, by omega, hok⟩
              rw [List.getElem?_append, hlenl, if_neg hkl]
              exact hb
      | apiErr msg =>
        by_cases hone : items.length = 1
        · rw [postBatchRecursive]
          simp only [hempty, Bool.false_eq_true, dite_false, hpost, hone,
            dite_true]
          refine ⟨by simp [hone], ?_⟩
          intro k hk
          have hk0 : k = 0 := by omega
          subst hk0
          exact ⟨⟨false, none, some msg, start⟩, rfl, by simp,
            Or.inr ⟨rfl, _, rfl, hmsg items msg hpost⟩⟩
        · have h2 : 2 ≤ items.length := by omega
          have hlef := ih (items.take (items.length / 2)) start
            (by simp only [List.length_take]; omega)
          have hrig := ih (items.drop (items.length / 2))
            (start + items.length / 2)
            (by simp only [List.length_drop]; omega)
          rw [postBatchRecursive]
          simp only [hempty, Bool.false_eq_true, dite_false, hpost, hone]
          have hlenl : (postBatchRecursive post emptyObj
              (items.take (items.length / 2)) start).length
              = items.length / 2 := by
            rw [hlef.1]; simp only [List.length_take]; omega
          have hlenr : (postBatchRecursive post emptyObj
              (items.drop (items.length / 2))
              (start + items.length / 2)).length
              = items.length - items.length / 2 := by
            rw [hrig.1]; simp only [List.length_drop]
          constructor
          · simp only [List.length_append, hlenl, hlenr]; omega
          · intro k hk
            by_cases hkl : k < items.length / 2
            · obtain ⟨b, hb, hidx, hok⟩ := hlef.2 k
                (by simp only [List.length_take]; omega)
              refine ⟨b, ?_, hidx, hok⟩
              rw [List.getElem?_append, hlenl, if_pos hkl]
              exact hb
            · obtain ⟨b, hb, hidx, hok⟩ := hrig.2 (k - items.length / 2)
                (by simp only [List.length_drop]; omega)
              refine ⟨b, ?_, by omega, hok⟩
              rw [List.getElem?_append, hlenl, if_neg hkl]
              exact hb

/-- Claim C4 (amended): provided every list-shaped success body has exactly
one entry per posted item and every `APIError` message is non-empty, the
recursive batch POST produces exactly one per-item result per input item,
in input order (`item_index = start + k` for slot `k`), each slot a success
carrying a body or a failure carrying a non-empty error string; batches of
size N>1 that fail are split in halves retried independently, and at N=1
the failure is recorded for the single item with the error message. -/
theorem C4_post_batch_per_item {Item Resp : Type}
    (post : List Item → PostOutcome Resp) (emptyObj : Resp)
    (hlen : ∀ its rs, post its = .ok (.rlist rs) → rs.length = its.length)
    (hmsg : ∀ its msg, post its = .apiErr msg → msg ≠ "")
    (items : List Item) (start : Nat) :
    (postBatchRecursive post emptyObj items start).length = items.length ∧
    (∀ k, k < items.length →
      ∃ b, (postBatchRecursive post emptyObj items start)[k]? = some b ∧
        b.itemIndex = start + k ∧ slotOk b) :=
  postBatch_spec post emptyObj hlen hmsg items.length items start (by omega)

/-- A server whose every batch succeeds with a single object body. -/
def goodPost : List Nat → PostOutcome Nat := fun _ => .ok (.rdict 5)

/-- Witness for C4 at a concrete two-item batch. -/
theorem C4_post_batch_per_item_witness :
    (postBatchRecursive goodPost 0 [3, 4] 0).length = ([3, 4] : List Nat).length ∧
    (∀ k, k < ([3, 4] : List Nat).length →
      ∃ b, (postBatchRecursive goodPost 0 [3, 4] 0)[k]? = some b ∧
        b.itemIndex = 0 + k ∧ slotOk b) :=
  C4_post_batch_per_item goodPost 0
    (by intro its rs h; simp [goodPost] at h)
    (by intro its msg h; simp [goodPost] at h)
    [3, 4] 0

/-- A misbehaving server that answers every batch with a single-element
list body. -/
def badPost : List Nat → PostOutcome Nat := fun _ => .ok (.rlist [some 7])

/-- Claim C4 (counterexample): when the server's list body does not match
the batch size, the batch POST does NOT return one result per input item:
a two-item batch yields a single result. -/
theorem C4_post_batch_counterexample :
    (postBatchRecursive badPost 0 [1, 2] 0).length = 1 ∧ (1 : Nat) ≠ 2 := by
  constructor
  · simp [postBatchRecursive, badPost, successResults, recordResponses]
  · decide

/-! ## `migrate_runs_streaming`
(`langsmith_migrator/core/migrators/experiment.py`)

The run stream is modelled per experiment as the list of pages the cursor
loop fetches; each page is sorted by `dotted_order` (missing treated as
`""`, as in `run.get("dotted_order", "")`) before its runs are processed.
An empty page stops that experiment's loop.  The fresh UUIDs of
`uuid-uuid4()` are supplied by `idGen` applied to a per-run counter.
Payload fields not involved in any claim (inputs, outputs, timings, tags,
events, ...) are copied verbatim by the code and are not modelled. -/

/-- The fields of a source run that the migration logic reads.  A run's own
`id` is always present in API data and is modelled as a plain string. -/
structure SourceRun where
  runId : String
  name : String
  runType : String
  sessionId : Option String
  parentRunId : Option String
  traceId : Option String
  referenceExampleId : Option String
  dottedOrder : Option String
deriving DecidableEq, Repr

/-- The run dict appended to the write batch (after the `None`-stripping,
which the `Option` fields encode). -/
structure MigratedRun where
  runId : String
  name : String
  runType : String
  parentRunId : Option String
  traceId : String
  dottedOrder : Option String
  sessionId : String
  referenceExampleId : Option String
deriving DecidableEq, Repr

/-- Mutable state of the streaming loop: `run_id_mapping`,
`trace_id_mapping`, and the counter feeding the fresh-UUID supply. -/
structure MigState where
  runMap : List (String × String)
  traceMap : List (String × String)
  counter : Nat
deriving DecidableEq, Repr

/-- The body of `for run in runs` in `migrate_runs_streaming`: skip the run
when its `session_id` is absent from the experiment mapping; otherwise map
the parent (omitting it when unmapped), map the reference example, assign a
fresh id, compute `trace_id` (own id for roots, recorded in the trace map;
the trace-map entry for children, falling back to the run's own new id),
record the run-id mapping, and regenerate `dotted_order` through the
combined map (trace entries shadow run entries, as in
`{**run_id_mapping, **trace_id_mapping}`). -/
def processRun (expMap exMap : List (String × String)) (idGen : Nat → String)
    (st : MigState) (r : SourceRun) : Option MigratedRun × MigState :=
  match r.sessionId with
  | none => (none, st)
  | some sid =>
    match alookup expMap sid with
    | none => (none, st)
    | some destSession =>
      let mappedParent : Option String :=
        if truthy r.parentRunId then alookup st.runMap (r.parentRunId.getD "")
        else none
      let mappedExample : Option String :=
        if truthy r.referenceExampleId then
          alookup exMap (r.referenceExampleId.getD "")
        else none
      let newRunId := idGen st.counter
      let newTraceId :=
        if truthy r.parentRunId then
          if truthy r.traceId then
            match alookup st.traceMap (r.traceId.getD "") with
            | some t => t
            | none => newRunId
          else newRunId
        else newRunId
      let traceMap' :=
        if truthy r.parentRunId then st.traceMap
        else if truthy r.traceId then
          ainsert st.traceMap (r.traceId.getD "") newRunId
        else st.traceMap
      let runMap' := ainsert st.runMap r.runId newRunId
      let combined := traceMap' ++ runMap'
      let newDottedOrder := regenerateDottedOrder r.dottedOrder combined newRunId
      (some ⟨newRunId, r.name, r.runType, mappedParent, newTraceId,
        newDottedOrder, destSession, mappedExample⟩,
       ⟨runMap', traceMap', st.counter + 1⟩)

/-- Process a list of source runs in order, accumulating written runs. -/
def processRunList (expMap exMap : List (String × String))
    (idGen : Nat → String) : List SourceRun → MigState →
    List MigratedRun × MigState
  | [], st => ([], st)
  | r :: rs, st =>
    let step := processRun expMap exMap idGen st r
    let rest := processRunList expMap exMap idGen rs step.2
    (match step.1 with
     | some w => w :: rest.1
     | none => rest.1, rest.2)

/-- Sort key: `run.get("dotted_order", "")`. -/
def runKey (r : SourceRun) : String := r.dottedOrder.getD ""

/-- Stable insertion into a key-sorted list (Python `list.sort` is stable;
for the distinct keys of real run streams the two coincide). -/
def insertRun (x : SourceRun) : List SourceRun → List SourceRun
  | [] => [x]
  | y :: ys => if runKey x ≤ runKey y then x :: y :: ys else y :: insertRun x ys

/-- `runs.sort(key=lambda r: r.get("dotted_order", ""))`. -/
def sortRuns (l : List SourceRun) : List SourceRun := l.foldr insertRun []

/-- The cursor loop fetches pages until one comes back empty
(`if not runs: break`). -/
def pagesUntilEmpty : List (List SourceRun) → List (List SourceRun)
  | [] => []
  | page :: rest =>
    if page = [] then [] else page :: pagesUntilEmpty rest

/-- The order in which `migrate_runs_streaming` visits source runs: per
experiment, each fetched page is sorted by `dotted_order` and processed
page by page. -/
def visitOrder (experiments : List (List (List SourceRun))) : List SourceRun :=
  (experiments.map
    (fun pages => ((pagesUntilEmpty pages).map sortRuns).flatten)).flatten

/-- `ExperimentMigrator.migrate_runs_streaming`: the written runs (batch
flushes preserve content and order, so batching is not modelled) and the
final mapping state. -/
def migrateRunsStreaming (idGen : Nat → String)
    (expMap exMap : List (String × String))
    (experiments : List (List (List SourceRun))) :
    List MigratedRun × MigState :=
  processRunList expMap exMap idGen (visitOrder experiments) ⟨[], [], 0⟩

/-- Claim C1 (amended): for every run the streaming loop writes, if the
source run has no truthy `parent_run_id` (root) its `trace_id` equals its
own newly assigned id, and that id is recorded in the trace map under the
truthy source `trace_id`; if the source run has a truthy `parent_run_id`
(child), its `trace_id` equals the trace-map entry for the source
`trace_id` when one exists at processing time, and falls back to the run's
own newly assigned id when the source `trace_id` is absent or unmapped
(e.g. a child encountered before its root). -/
theorem C1_trace_id (expMap exMap : List (String × String))
    (idGen : Nat → String) (st st' : MigState) (r : SourceRun)
    (w : MigratedRun)
    (hp : processRun expMap exMap idGen st r = (some w, st')) :
    (truthy r.parentRunId = false →
      w.traceId = w.runId ∧
      (∀ tid, r.traceId = some tid → tid ≠ "" →
        alookup st'.traceMap tid = some w.runId)) ∧
    (truthy r.parentRunId = true →
      (∀ tid v, r.traceId = some tid → tid ≠ "" →
        alookup st.traceMap tid = some v → w.traceId = v) ∧
      (truthy r.traceId = false ∨ alookup st.traceMap (r.traceId.getD "") = none →
        w.traceId = w.runId)) := by
  cases hs : r.sessionId with
  | none => simp [processRun, hs] at hp
  | some sid =>
    cases hm : alookup expMap sid with
    | none => simp [processRun, hs, hm] at hp
    | some destSession =>
      simp only [processRun, hs, hm] at hp
      simp only [Prod.mk.injEq, Option.some.injEq] at hp
      obtain ⟨hw, hst⟩ := hp
      constructor
      · intro hroot
        constructor
        · rw [← hw]
          simp [hroot]
        · intro tid htid htne
          have htr : truthy r.traceId = true := by
            simp [truthy, htid, htne]
          have htru : truthy (some tid) = true := by simp [truthy, htne]
          rw [← hst, ← hw]
          simp [hroot, htr, ainsert, alookup, htid, htru]
      · intro hchild
        constructor
        · intro tid v htid htne hmap
          have htr : truthy r.traceId = true := by
            simp [truthy, htid, htne]
          rw [← hw]
          simp only [hchild, if_true, htr]
          rw [htid]
          simp only [Option.getD_some]
          rw [hmap]
        · intro hcase
          rw [← hw]
          cases hcase with
          | inl hfal => simp [hchild, hfal]
          | inr hnone =>
            by_cases htr : truthy r.traceId = true
            · simp [hchild, htr, hnone]
            · simp [hchild, htr]

/-- Fresh-id supply standing in for `uuid.uuid4()`. -/
def demoIdGen : Nat → String := fun n => "new" ++ toString n

/-- A root run (no parent) in session `s` with source trace id `tr`. -/
def rootRun : SourceRun := ⟨"r0", "nm", "chain", some "s", none, some "tr", none, none⟩

/-- The run written for `rootRun` from the empty state. -/
def rootWritten : MigratedRun := ⟨"new0", "nm", "chain", none, "new0", none, "S", none⟩

/-- The state after processing `rootRun` from the empty state. -/
def rootState : MigState := ⟨[("r0", "new0")], [("tr", "new0")], 1⟩

/-- Witness for C1 at a concrete root run. -/
theorem C1_trace_id_witness :
    (truthy rootRun.parentRunId = false →
      rootWritten.traceId = rootWritten.runId ∧
      (∀ tid, rootRun.traceId = some tid → tid ≠ "" →
        alookup rootState.traceMap tid = some rootWritten.runId)) ∧
    (truthy rootRun.parentRunId = true →
      (∀ tid v, rootRun.traceId = some tid → tid ≠ "" →
        alookup (⟨[], [], 0⟩ : MigState).traceMap tid = some v →
        rootWritten.traceId = v) ∧
      (truthy rootRun.traceId = false ∨
        alookup (⟨[], [], 0⟩ : MigState).traceMap (rootRun.traceId.getD "") = none →
        rootWritten.traceId = rootWritten.runId)) :=
  C1_trace_id [("s", "S")] [] demoIdGen ⟨[], [], 0⟩ rootState rootRun rootWritten
    (by decide)

/-- A child run whose root is absent from the stream. -/
def childRun : SourceRun :=
  ⟨"r1", "nm", "chain", some "s", some "p0", some "tr", none, none⟩

/-- Claim C1 (counterexample): `childRun` has a parent, is written with
`trace_id` equal to its own fresh id, yet no value is ever recorded in the
trace map for its source `trace_id` — so its `trace_id` cannot equal "the
value recorded in the trace map for the source trace_id" as the claim
states. -/
theorem C1_trace_id_counterexample :
    truthy childRun.parentRunId = true ∧
    ((migrateRunsStreaming demoIdGen [("s", "S")] [] [[[childRun]]]).1.map
      (fun w => (w.traceId, w.runId))) = [("new0", "new0")] ∧
    ¬ (∃ v, alookup (migrateRunsStreaming demoIdGen [("s", "S")] []
        [[[childRun]]]).2.traceMap "tr" = some v ∧
      ((migrateRunsStreaming demoIdGen [("s", "S")] [] [[[childRun]]]).1.map
        (fun w => w.traceId)) = [v]) := by
  refine ⟨by decide, by decide, ?_⟩
  rintro ⟨v, hv, -⟩
  rw [show alookup (migrateRunsStreaming demoIdGen [("s", "S")] []
      [[[childRun]]]).2.traceMap "tr" = none from by decide] at hv
  cases hv

theorem insertRun_perm (x : SourceRun) (l : List SourceRun) :
    (insertRun x l).Perm (x :: l) := by
  induction l with
  | nil => exact List.Perm.refl _
  | cons y ys ih =>
    rw [insertRun]
    by_cases h : runKey x ≤ runKey y
    · rw [if_pos h]
    · rw [if_neg h]
      exact (ih.cons y).trans (List.Perm.swap x y ys)

theorem sortRuns_perm (l : List SourceRun) : (sortRuns l).Perm l := by
  induction l with
  | nil => exact List.Perm.refl _
  | cons x xs ih =>
    have h1 : sortRuns (x :: xs) = insertRun x (sortRuns xs) := rfl
    rw [h1]
    exact (insertRun_perm x (sortRuns xs)).trans (ih.cons x)

theorem insertRun_mem (z x : SourceRun) (l : List SourceRun) :
    z ∈ insertRun x l → z = x ∨ z ∈ l := by
  intro hz
  have := (insertRun_perm x l).mem_iff.mp hz
  simpa using this

theorem insertRun_pairwise (x : SourceRun) (l : List SourceRun)
    (h : l.Pairwise (fun a b => runKey a ≤ runKey b)) :
    (insertRun x l).Pairwise (fun a b => runKey a ≤ runKey b) := by
  induction l with
  | nil => simp [insertRun]
  | cons y ys ih =>
    rw [List.pairwise_cons] at h
    rw [insertRun]
    by_cases hxy : runKey x ≤ runKey y
    · rw [if_pos hxy]
      refine List.Pairwise.cons ?_ (List.Pairwise.cons h.1 h.2)
      intro z hz
      rcases List.mem_cons.mp hz with hz | hz
      · rw [hz]; exact hxy
      · exact le_trans hxy (h.1 z hz)
    · rw [if_neg hxy]
      have hyx : runKey y ≤ runKey x := le_of_not_le hxy
      refine List.Pairwise.cons ?_ (ih h.2)
      intro z hz
      rcases insertRun_mem z x ys hz with hz | hz
      · rw [hz]; exact hyx
      · exact h.1 z hz

theorem sortRuns_pairwise (l : List SourceRun) :
    (sortRuns l).Pairwise (fun a b => runKey a ≤ runKey b) := by
  induction l with
  | nil => simp [sortRuns]
  | cons x xs ih => exact insertRun_pairwise x (sortRuns xs) ih

/-- Claim C3 (amended): each fetched page of the run stream is sorted in
ascending `dotted_order` before its runs are processed — the processed
sequence of a page is a permutation of the page, pairwise ascending in
`runKey` — and a single-page stream is therefore processed fully sorted.
Across pages no ordering holds (see the counterexample). -/
theorem C3_runs_sorted_per_page (page : List SourceRun) :
    (sortRuns page).Perm page ∧
    (sortRuns page).Pairwise (fun a b => runKey a ≤ runKey b) ∧
    visitOrder [[page]] = sortRuns page := by
  refine ⟨sortRuns_perm page, sortRuns_pairwise page, ?_⟩
  by_cases h : page = []
  · subst h; rfl
  · simp [visitOrder, pagesUntilEmpty, h]

/-- A child run on the first page, its parent root on the second. -/
def childFirst : SourceRun :=
  ⟨"rC", "nm", "chain", some "s", some "rB", some "tB", none, some "2"⟩

/-- The root run, fetched only on the second page. -/
def rootSecond : SourceRun :=
  ⟨"rB", "nm", "chain", some "s", none, some "tB", none, some "1"⟩

/-- Claim C3 (counterexample): with the parent on a later page than the
child, the whole run stream is processed in the order `["2", "1"]` of
dotted orders — not ascending — and the child is written before its parent,
with its `parent_run_id` omitted (both written runs carry `none`). -/
theorem C3_runs_sorted_counterexample :
    (visitOrder [[[childFirst], [rootSecond]]]).map runKey = ["2", "1"] ∧
    ¬ ((visitOrder [[[childFirst], [rootSecond]]]).map runKey).Pairwise
        (fun a b => a ≤ b) ∧
    ((migrateRunsStreaming demoIdGen [("s", "S")] []
        [[[childFirst], [rootSecond]]]).1.map
      (fun w => (w.runId, w.parentRunId)))
      = [("new0", none), ("new1", none)] := by
  refine ⟨by decide, ?_, by decide⟩
  intro h
  rw [show (visitOrder [[[childFirst], [rootSecond]]]).map runKey
      = ["2", "1"] from by decide] at h
  rw [List.pairwise_cons] at h
  have h21 := h.1 "1" (by simp)
  rw [String.le_iff_toList_le] at h21
  revert h21
  decide

/-! ## `RulesMigrator.create_rule` (`langsmith_migrator/core/migrators/rules.py`)

The scope-resolution step (lines 796-856) decides whether the rule payload
gets a destination `session_id` / `dataset_id` or the rule is skipped, and
the tail of `create_rule` then either skips (existing + `skip_existing`),
PATCHes (existing), or POSTs the payload. -/

/-- Result of the scope-resolution step: proceed with the payload's
`session_id`/`dataset_id` fields, or skip with the logged reason. -/
inductive RuleScope where
  | proceed (sessionId datasetId : Option String)
  | skip (reason : String)
deriving DecidableEq, Repr

/-- The `if strip_project_reference / elif target_project_id / else` block
of `create_rule`, including the preceding mapping of the source
`session_id` through the project map and the source `dataset_id` through
the dataset map. -/
def resolveRuleScope (stripProjectReference : Bool)
    (targetProjectId sourceSessionId sourceDatasetId : Option String)
    (projectMap datasetMap : List (String × String)) : RuleScope :=
  let destSessionId : Option String :=
    if truthy sourceSessionId then alookup projectMap (sourceSessionId.getD "")
    else none
  let destDatasetId : Option String :=
    if truthy sourceDatasetId then alookup datasetMap (sourceDatasetId.getD "")
    else none
  if stripProjectReference then
    if truthy destDatasetId then .proceed none destDatasetId
    else if truthy sourceDatasetId then
      .skip "Cannot migrate rule without valid dataset or project"
    else .skip "no dataset_id to use instead"
  else if truthy targetProjectId then
    .proceed targetProjectId (if truthy destDatasetId then destDatasetId else none)
  else
    if truthy destSessionId = false ∧ truthy destDatasetId = false then
      .skip "rule cannot be mapped"
    else
      .proceed (if truthy destSessionId then destSessionId else none)
        (if truthy destDatasetId then destDatasetId else none)

/-- What `create_rule` does after scope resolution. -/
inductive RuleAction where
  | skipped (reason : String)
  | skippedExisting (ruleId : String)
  | updated (ruleId : String)
  | posted (sessionId datasetId : Option String)
deriving DecidableEq, Repr

/-- The tail of `create_rule`: a skip from scope resolution returns `None`
before any request; otherwise `find_existing_rule`'s result (`existing`)
selects skip/update, and only an absent existing rule leads to the POST of
the payload. -/
def createRuleAction (stripProjectReference : Bool)
    (targetProjectId sourceSessionId sourceDatasetId : Option String)
    (projectMap datasetMap : List (String × String))
    (existing : Option String) (skipExisting : Bool) : RuleAction :=
  match resolveRuleScope stripProjectReference targetProjectId sourceSessionId
      sourceDatasetId projectMap datasetMap with
  | .skip r => .skipped r
  | .proceed sess ds =>
    match existing with
    | some eid => if skipExisting then .skippedExisting eid else .updated eid
    | none => .posted sess ds

theorem ifOpt_eq_some (c : Bool) (o : Option String) (d : String)
    (h : (if c = true then o else none) = some d) : c = true ∧ o = some d := by
  by_cases hc : c = true <;> simp [hc] at h ⊢
  exact h

theorem truthy_of_eq_some_of_if (c : Bool) (o : Option String)
    (h : truthy (if c = true then o else none) = true) :
    c = true ∧ truthy o = true := by
  by_cases hc : c = true <;> simp [hc, truthy] at h ⊢
  exact h

theorem resolveRuleScope_proceed (strip : Bool)
    (target srcSess srcDs : Option String)
    (pmap dmap : List (String × String)) (sess ds : Option String)
    (h : resolveRuleScope strip target srcSess srcDs pmap dmap
      = .proceed sess ds) :
    (truthy sess = true ∨ truthy ds = true) ∧
    (∀ d, ds = some d → alookup dmap (srcDs.getD "") = some d) ∧
    (∀ s0, sess = some s0 →
      target = some s0 ∨ alookup pmap (srcSess.getD "") = some s0) ∧
    (strip = true → sess = none) := by
  unfold resolveRuleScope at h
  by_cases hstrip : strip = true
  · simp only [hstrip, if_true] at h
    by_cases hdD : truthy (if truthy srcDs = true
        then alookup dmap (srcDs.getD "") else none) = true
    · simp only [hdD, if_true, RuleScope.proceed.injEq] at h
      obtain ⟨hsess, hds⟩ := h
      subst hsess hds
      refine ⟨Or.inr hdD, ?_, by simp, fun _ => rfl⟩
      intro d hd
      exact (ifOpt_eq_some _ _ _ hd).2
    · simp only [hdD, if_false, Bool.false_eq_true] at h
      by_cases hsd : truthy srcDs = true <;> simp [hsd] at h
  · simp only [hstrip, if_false, Bool.false_eq_true] at h
    by_cases htar : truthy target = true
    · simp only [htar, if_true, RuleScope.proceed.injEq] at h
      obtain ⟨hsess, hds⟩ := h
      subst hsess hds
      refine ⟨Or.inl htar, ?_, ?_, fun hc => absurd hc hstrip⟩
      · intro d hd
        by_cases hdD : truthy (if truthy srcDs = true
            then alookup dmap (srcDs.getD "") else none) = true
        · rw [if_pos hdD] at hd
          exact (ifOpt_eq_some _ _ _ hd).2
        · rw [if_neg hdD] at hd
          cases hd
      · intro s0 hs0
        exact Or.inl hs0
    · simp only [htar, if_false, Bool.false_eq_true] at h
      by_cases hboth : (truthy (if truthy srcSess = true
            then alookup pmap (srcSess.getD "") else none) = false ∧
          truthy (if truthy srcDs = true
            then alookup dmap (srcDs.getD "") else none) = false)
      · simp only [hboth, if_true] at h
        cases h
      · simp only [hboth, if_false] at h
        simp only [RuleScope.proceed.injEq] at h
        obtain ⟨hsess, hds⟩ := h
        subst hsess hds
        refine ⟨?_, ?_, ?_, fun hc => absurd hc hstrip⟩
        · by_cases hdS : truthy (if truthy srcSess = true
              then alookup pmap (srcSess.getD "") else none) = true
          · left; simp [hdS]
          · right
            have hdSf : truthy (if truthy srcSess = true
                then alookup pmap (srcSess.getD "") else none) = false := by
              simpa using hdS
            have hdD : truthy (if truthy srcDs = true
                then alookup dmap (srcDs.getD "") else none) = true := by
              by_contra hc
              have hdDf : truthy (if truthy srcDs = true
                  then alookup dmap (srcDs.getD "") else none) = false := by
                simpa using hc
              exact hboth ⟨hdSf, hdDf⟩
            simp [hdD]
        · intro d hd
          by_cases hdD : truthy (if truthy srcDs = true
              then alookup dmap (srcDs.getD "") else none) = true
          · rw [if_pos hdD] at hd
            exact (ifOpt_eq_some _ _ _ hd).2
          · rw [if_neg hdD] at hd
            cases hd
        · intro s0 hs0
          right
          by_cases hdS : truthy (if truthy srcSess = true
              then alookup pmap (srcSess.getD "") else none) = true
          · rw [if_pos hdS] at hs0
            exact (ifOpt_eq_some _ _ _ hs0).2
          · rw [if_neg hdS] at hs0
            cases hs0

/-- Claim C8: `create_rule` POSTs only payloads carrying at least one
scope reference: a truthy destination `session_id` (the explicitly supplied
target project id, or the project-map image of the source session) or a
truthy destination `dataset_id` (always the dataset-map image of the source
dataset); in strip-project mode the payload never carries a session id and
a mapped dataset id is required; whenever neither scope can be supplied the
rule is skipped with a reason before any create request. -/
theorem C8_rule_requires_scope (strip : Bool)
    (target srcSess srcDs : Option String)
    (pmap dmap : List (String × String)) (existing : Option String)
    (skipEx : Bool) :
    (∀ sess ds, createRuleAction strip target srcSess srcDs pmap dmap
        existing skipEx = .posted sess ds →
      (truthy sess = true ∨ truthy ds = true) ∧
      (∀ d, ds = some d → alookup dmap (srcDs.getD "") = some d) ∧
      (∀ s0, sess = some s0 →
        target = some s0 ∨ alookup pmap (srcSess.getD "") = some s0) ∧
      (strip = true → sess = none)) ∧
    (strip = true →
      truthy (if truthy srcDs = true
        then alookup dmap (srcDs.getD "") else none) = false →
      ∃ reason, createRuleAction strip target srcSess srcDs pmap dmap
        existing skipEx = .skipped reason) ∧
    (strip = false → truthy target = false →
      truthy (if truthy srcSess = true
        then alookup pmap (srcSess.getD "") else none) = false →
      truthy (if truthy srcDs = true
        then alookup dmap (srcDs.getD "") else none) = false →
      createRuleAction strip target srcSess srcDs pmap dmap existing skipEx
        = .skipped "rule cannot be mapped") := by
  refine ⟨?_, ?_, ?_⟩
  · intro sess ds hpost
    unfold createRuleAction at hpost
    cases hres : resolveRuleScope strip target srcSess srcDs pmap dmap with
    | skip r => simp [hres] at hpost
    | proceed s d =>
      rw [hres] at hpost
      cases existing with
      | some eid =>
        by_cases hse : skipEx = true <;> simp [hse] at hpost
      | none =>
        simp only [RuleAction.posted.injEq] at hpost
        obtain ⟨hs, hd⟩ := hpost
        rw [← hs, ← hd]
        exact resolveRuleScope_proceed strip target srcSess srcDs pmap dmap
          s d hres
  · intro hstrip hdD
    unfold createRuleAction resolveRuleScope
    simp only [hstrip, if_true, hdD, Bool.false_eq_true, if_false]
    by_cases hsd : truthy srcDs = true
    · exact ⟨"Cannot migrate rule without valid dataset or project",
        by simp [hsd]⟩
    · exact ⟨"no dataset_id to use instead", by simp [hsd]⟩
  · intro hstrip htar hdS hdD
    unfold createRuleAction resolveRuleScope
    simp [hstrip, htar, hdS, hdD]

/-- Witness for C8: a rule with only a mapped source project is posted
with that project id and no dataset id. -/
theorem C8_rule_requires_scope_witness :
    (truthy (some "P") = true ∨ truthy (none : Option String) = true) ∧
    (∀ d, (none : Option String) = some d →
      alookup ([] : List (String × String))
        ((none : Option String).getD "") = some d) ∧
    (∀ s0, (some "P" : Option String) = some s0 →
      (none : Option String) = some s0 ∨
        alookup [("p", "P")] ((some "p").getD "") = some s0) ∧
    (false = true → (some "P" : Option String) = none) :=
  (C8_rule_requires_scope false none (some "p") none [("p", "P")] [] none
    false).1 (some "P") none (by decide)

/-! ## `DatasetMigrator._hash_inputs`
(`langsmith_migrator/core/migrators/dataset.py`)

`_hash_inputs` computes
`hashlib.sha256(json.dumps(inputs, sort_keys=True, default=str).encode()).hexdigest()`.
SHA-256 is implemented below over `Nat` (words mod 2^32); `json.dumps` with
`sort_keys=True` serialises every object with its keys sorted, which equals
the plain serialisation of the recursively key-sorted value, so the
embedding is `dumpsJson ", " ": " (normJson v)` with CPython's default
separators `", "` and `": "` (a space after every comma and colon);
`default=str` only affects non-JSON values and does not arise.  The spec's
"canonical JSON" (sorted keys, no insignificant whitespace) is
`dumpsJson "," ":" (normJson v)`, kept for comparison.  Floats are not
modelled (no claim touches them). -/

def M32 : Nat := 4294967296

def add32 (a b : Nat) : Nat := (a + b) % M32

def rotr32 (k x : Nat) : Nat := ((x >>> k) ||| (x <<< (32 - k))) % M32

def bsig0 (x : Nat) : Nat := (rotr32 2 x) ^^^ (rotr32 13 x) ^^^ (rotr32 22 x)
def bsig1 (x : Nat) : Nat := (rotr32 6 x) ^^^ (rotr32 11 x) ^^^ (rotr32 25 x)
def ssig0 (x : Nat) : Nat := (rotr32 7 x) ^^^ (rotr32 18 x) ^^^ (x >>> 3)
def ssig1 (x : Nat) : Nat := (rotr32 17 x) ^^^ (rotr32 19 x) ^^^ (x >>> 10)
def chF (x y z : Nat) : Nat := (x &&& y) ^^^ ((x ^^^ (M32 - 1)) &&& z)
def majF (x y z : Nat) : Nat := (x &&& y) ^^^ (x &&& z) ^^^ (y &&& z)

def shaK : List Nat :=
  [1116352408, 1899447441, 3049323471, 3921009573, 961987163,
   1508970993, 2453635748, 2870763221, 3624381080, 310598401,
   607225278, 1426881987, 1925078388, 2162078206, 2614888103,
   3248222580, 3835390401, 4022224774, 264347078, 604807628,
   770255983, 1249150122, 1555081692, 1996064986, 2554220882,
   2821834349, 2952996808, 3210313671, 3336571891, 3584528711,
   113926993, 338241895, 666307205, 773529912, 1294757372,
   1396182291, 1695183700, 1986661051, 2177026350, 2456956037,
   2730485921, 2820302411, 3259730800, 3345764771, 3516065817,
   3600352804, 4094571909, 275423344, 430227734, 506948616,
   659060556, 883997877, 958139571, 1322822218, 1537002063,
   1747873779, 1955562222, 2024104815, 2227730452, 2361852424,
   2428436474, 2756734187, 3204031479, 3329325298]

def shaH0 : List Nat :=
  [1779033703, 3144134277, 1013904242, 2773480762,
   1359893119, 2600822924, 528734635, 1541459225]

def padMessage (msg : List Nat) : List Nat :=
  let bitLen := msg.length * 8
  let k := (119 - (msg.length % 64)) % 64
  msg ++ 0x80 :: List.replicate k 0
    ++ (List.range 8).map (fun i => (bitLen >>> (8 * (7 - i))) % 256)

def bytesToWords : List Nat → List Nat
  | b0 :: b1 :: b2 :: b3 :: rest =>
    (((b0 * 256 + b1) * 256 + b2) * 256 + b3) :: bytesToWords rest
  | _ => []

def wordsToBlocks : List Nat → List (List Nat)
  | w0 :: w1 :: w2 :: w3 :: w4 :: w5 :: w6 :: w7 :: w8 :: w9 :: w10 :: w11 ::
      w12 :: w13 :: w14 :: w15 :: rest =>
    [w0, w1, w2, w3, w4, w5, w6, w7, w8, w9, w10, w11, w12, w13, w14, w15]
      :: wordsToBlocks rest
  | _ => []

def extendSched : List Nat → Nat → List Nat
  | wrev, 0 => wrev
  | wrev, n + 1 =>
    let w := add32 (add32 (ssig1 (wrev.getD 1 0)) (wrev.getD 6 0))
      (add32 (ssig0 (wrev.getD 14 0)) (wrev.getD 15 0))
    extendSched (w :: wrev) n

def msgSchedule (block : List Nat) : List Nat :=
  (extendSched block.reverse 48).reverse

def compressWords : List (Nat × Nat) → List Nat → List Nat
  | [], st => st
  | (k, w) :: rest, st =>
    match st with
    | [a, b, c, d, e, f, g, h] =>
      let t1 := add32 (add32 (add32 h (bsig1 e)) (add32 (chF e f g) k)) w
      let t2 := add32 (bsig0 a) (majF a b c)
      compressWords rest [add32 t1 t2, a, b, c, add32 d t1, e, f, g]
    | _ => st

def processBlock (h : List Nat) (block : List Nat) : List Nat :=
  let out := compressWords (shaK.zip (msgSchedule block)) h
  (h.zip out).map (fun p => add32 p.1 p.2)

def processBlocks : List (List Nat) → List Nat → List Nat
  | [], h => h
  | b :: bs, h => processBlocks bs (processBlock h b)

def sha256Words (msg : List Nat) : List Nat :=
  processBlocks (wordsToBlocks (bytesToWords (padMessage msg))) shaH0

def hexDigits : List Char := "0123456789abcdef".toList

def byteToHex (b : Nat) : List Char :=
  [hexDigits.getD (b / 16) 'x', hexDigits.getD (b % 16) 'x']

def wordToBytesBE (w : Nat) : List Nat :=
  [(w >>> 24) % 256, (w >>> 16) % 256, (w >>> 8) % 256, w % 256]

def sha256Hex (msg : List Nat) : String :=
  String.mk (List.flatten (((sha256Words msg).map wordToBytesBE).flatten.map byteToHex))

def utf8Char (c : Char) : List Nat :=
  let n := c.toNat
  if n < 0x80 then [n]
  else if n < 0x800 then [0xC0 + n / 64, 0x80 + n % 64]
  else if n < 0x10000 then
    [0xE0 + n / 4096, 0x80 + (n / 64) % 64, 0x80 + n % 64]
  else
    [0xF0 + n / 262144, 0x80 + (n / 4096) % 64, 0x80 + (n / 64) % 64,
     0x80 + n % 64]

def strBytes (s : String) : List Nat := (s.toList.map utf8Char).flatten

example : sha256Hex (strBytes "abc")
    = "ba7816bf8f01cfea414140de5dae2223b00361a396177a9cb410ff61f20015ad" := by
  decide

example : sha256Hex (strBytes "")
    = "e3b0c44298fc1c149afbf4c8996fb92427ae41e4649b934ca495991b7852b855" := by
  decide


mutual
inductive PyJson where
  | jnull
  | jbool (b : Bool)
  | jint (n : Int)
  | jstr (s : String)
  | jarr (xs : PyList)
  | jobj (fields : PyFields)
inductive PyList where
  | lnil
  | lcons (v : PyJson) (tl : PyList)
inductive PyFields where
  | fnil
  | fcons (k : String) (v : PyJson) (tl : PyFields)
end

def PyFields.toList : PyFields → List (String × PyJson)
  | .fnil => []
  | .fcons k v tl => (k, v) :: tl.toList

def PyFields.ofList : List (String × PyJson) → PyFields
  | [] => .fnil
  | (k, v) :: tl => .fcons k v (PyFields.ofList tl)

/-- Code-point lexicographic comparison on character lists, matching
Python's `str` ordering (used by `sorted`/`sort_keys`). -/
def lexLe : List Char → List Char → Bool
  | [], _ => true
  | _ :: _, [] => false
  | c :: cs, d :: ds =>
    if c.toNat < d.toNat then true
    else if d.toNat < c.toNat then false
    else lexLe cs ds

/-- Python `a <= b` on strings. -/
def strLe (a b : String) : Bool := lexLe a.toList b.toList

def insertField (k : String) (v : PyJson) : PyFields → PyFields
  | .fnil => .fcons k v .fnil
  | .fcons k2 v2 tl =>
    if strLe k k2 then .fcons k v (.fcons k2 v2 tl)
    else .fcons k2 v2 (insertField k v tl)

def sortFields : PyFields → PyFields
  | .fnil => .fnil
  | .fcons k v tl => insertField k v (sortFields tl)

mutual
def normJson : PyJson → PyJson
  | .jnull => .jnull
  | .jbool b => .jbool b
  | .jint n => .jint n
  | .jstr s => .jstr s
  | .jarr xs => .jarr (normList xs)
  | .jobj fs => .jobj (sortFields (normFields fs))
def normList : PyList → PyList
  | .lnil => .lnil
  | .lcons v tl => .lcons (normJson v) (normList tl)
def normFields : PyFields → PyFields
  | .fnil => .fnil
  | .fcons k v tl => .fcons k (normJson v) (normFields tl)
end

def hex4 (n : Nat) : List Char :=
  [hexDigits.getD (n / 4096 % 16) 'x', hexDigits.getD (n / 256 % 16) 'x',
   hexDigits.getD (n / 16 % 16) 'x', hexDigits.getD (n % 16) 'x']

def escChar (c : Char) : List Char :=
  if c = '"' then ['\\', '"']
  else if c = '\\' then ['\\', '\\']
  else if c = '\n' then ['\\', 'n']
  else if c = '\t' then ['\\', 't']
  else if c = '\r' then ['\\', 'r']
  else if c.toNat = 8 then ['\\', 'b']
  else if c.toNat = 12 then ['\\', 'f']
  else if c.toNat < 0x20 then '\\' :: 'u' :: hex4 c.toNat
  else if c.toNat < 0x7F then [c]
  else if c.toNat < 0x10000 then '\\' :: 'u' :: hex4 c.toNat
  else
    let n := c.toNat - 0x10000
    ('\\' :: 'u' :: hex4 (0xD800 + n / 1024)) ++ ('\\' :: 'u' :: hex4 (0xDC00 + n % 1024))

def jstrLit (s : String) : String :=
  String.mk ('"' :: (s.toList.map escChar).flatten ++ ['"'])

mutual
def dumpsJson (isep ksep : String) : PyJson → String
  | .jnull => "null"
  | .jbool b => if b then "true" else "false"
  | .jint n => toString n
  | .jstr s => jstrLit s
  | .jarr xs => "[" ++ dumpsElems isep ksep xs ++ "]"
  | .jobj fs => "\x7b" ++ dumpsFields isep ksep fs ++ "\x7d"
def dumpsElems (isep ksep : String) : PyList → String
  | .lnil => ""
  | .lcons v .lnil => dumpsJson isep ksep v
  | .lcons v (.lcons w tl) =>
    dumpsJson isep ksep v ++ isep ++ dumpsElems isep ksep (.lcons w tl)
def dumpsFields (isep ksep : String) : PyFields → String
  | .fnil => ""
  | .fcons k v .fnil => jstrLit k ++ ksep ++ dumpsJson isep ksep v
  | .fcons k v (.fcons k2 v2 tl) =>
    jstrLit k ++ ksep ++ dumpsJson isep ksep v ++ isep
      ++ dumpsFields isep ksep (.fcons k2 v2 tl)
end

def pyDumpsSorted (v : PyJson) : String := dumpsJson ", " ": " (normJson v)

def canonicalDumps (v : PyJson) : String := dumpsJson "," ":" (normJson v)

def hashInputs (v : PyJson) : String :=
  sha256Hex (strBytes (pyDumpsSorted v))

def canonicalHash (v : PyJson) : String :=
  sha256Hex (strBytes (canonicalDumps v))

example : pyDumpsSorted (.jobj (.fcons "q" (.jint 1) .fnil)) = "\x7b\"q\": 1\x7d" := by decide
example :
    pyDumpsSorted (.jobj (.fcons "b" (.jint 2) (.fcons "a" (.jint 1) .fnil)))
      = "\x7b\"a\": 1, \"b\": 2\x7d" := by decide
example :
    pyDumpsSorted (.jobj (.fcons "a"
        (.jarr (.lcons (.jint 1) (.lcons (.jbool true) (.lcons .jnull
          (.lcons (.jstr "x") .lnil)))))
        (.fcons "b" (.jobj .fnil) .fnil)))
      = "\x7b\"a\": [1, true, null, \"x\"], \"b\": \x7b\x7d\x7d" := by decide
example : jstrLit "é" = "\"\\u00e9\"" := by decide
example : jstrLit "\n\t" = "\"\\n\\t\"" := by decide
example : hashInputs (.jobj (.fcons "q" (.jint 1) .fnil))
    = "7a160a56eccfdb867c16771db3cc3a789f06a1245c8bbd7d8c2f6eaa3645852d" := by decide
example : canonicalHash (.jobj (.fcons "q" (.jint 1) .fnil))
    = "6ae0f660046dadcf5fe8462c0e00a062db4c8d67be82f4098c5ea4208d19b076" := by decide


theorem char_toNat_inj (c d : Char) (h : c.toNat = d.toNat) : c = d := by
  have hv : c.val = d.val := by
    apply UInt32.ext
    exact h
  cases c; cases d; simp_all

theorem lexLe_total (a : List Char) : ∀ b, lexLe a b = true ∨ lexLe b a = true := by
  induction a with
  | nil => intro b; left; rfl
  | cons c cs ih =>
    intro b
    cases b with
    | nil => right; rfl
    | cons d ds =>
      by_cases h1 : c.toNat < d.toNat
      · left; simp [lexLe, h1]
      · by_cases h2 : d.toNat < c.toNat
        · right; simp [lexLe, h2]
        · rcases ih ds with h | h
          · left; simp [lexLe, h1, h2, h]
          · right; simp [lexLe, h1, h2, h]

theorem lexLe_antisymm (a : List Char) :
    ∀ b, lexLe a b = true → lexLe b a = true → a = b := by
  induction a with
  | nil =>
    intro b _ hba
    cases b with
    | nil => rfl
    | cons d ds => simp [lexLe] at hba
  | cons c cs ih =>
    intro b hab hba
    cases b with
    | nil => simp [lexLe] at hab
    | cons d ds =>
      by_cases h1 : c.toNat < d.toNat
      · simp [lexLe, h1, Nat.lt_asymm h1] at hba
      · by_cases h2 : d.toNat < c.toNat
        · simp [lexLe, h2, Nat.lt_asymm h2] at hab
        · have hc : c = d := char_toNat_inj c d (by omega)
          subst hc
          simp only [lexLe, h1, if_false] at hab hba
          rw [ih ds hab hba]

theorem lexLe_trans (a : List Char) :
    ∀ b c, lexLe a b = true → lexLe b c = true → lexLe a c = true := by
  induction a with
  | nil => intro b c _ _; rfl
  | cons x xs ih =>
    intro b c hab hbc
    cases b with
    | nil => simp [lexLe] at hab
    | cons y ys =>
      cases c with
      | nil => simp [lexLe] at hbc
      | cons z zs =>
        simp only [lexLe] at hab hbc ⊢
        by_cases h1 : x.toNat < y.toNat
        · by_cases h2 : y.toNat < z.toNat
          · simp [show x.toNat < z.toNat by omega]
          · by_cases h3 : z.toNat < y.toNat
            · simp [h2, h3] at hbc
            · have : y.toNat = z.toNat := by omega
              simp [show x.toNat < z.toNat by omega]
        · by_cases h1' : y.toNat < x.toNat
          · simp [h1, h1'] at hab
          · have hxy : x.toNat = y.toNat := by omega
            by_cases h2 : y.toNat < z.toNat
            · simp [show x.toNat < z.toNat by omega]
            · by_cases h3 : z.toNat < y.toNat
              · simp [h2, h3] at hbc
              · simp only [h1, if_false, h1', ite_false] at hab
                simp only [h2, if_false, h3, ite_false] at hbc
                simp [show ¬ (x.toNat < z.toNat) by omega,
                  show ¬ (z.toNat < x.toNat) by omega, ih ys zs hab hbc]

theorem strLe_total (a b : String) : strLe a b = true ∨ strLe b a = true :=
  lexLe_total a.toList b.toList

theorem strLe_antisymm (a b : String) (h1 : strLe a b = true)
    (h2 : strLe b a = true) : a = b := by
  have := lexLe_antisymm a.toList b.toList h1 h2
  cases a; cases b; simp_all [String.toList]

theorem strLe_trans (a b c : String) (h1 : strLe a b = true)
    (h2 : strLe b c = true) : strLe a c = true :=
  lexLe_trans a.toList b.toList c.toList h1 h2

/-- List-level mirror of `insertField`, for reasoning. -/
def insertPair (p : String × PyJson) : List (String × PyJson) →
    List (String × PyJson)
  | [] => [p]
  | q :: qs => if strLe p.1 q.1 then p :: q :: qs else q :: insertPair p qs

/-- List-level mirror of `sortFields`. -/
def sortPairs (l : List (String × PyJson)) : List (String × PyJson) :=
  l.foldr insertPair []

theorem insertField_ofList (k : String) (v : PyJson)
    (l : List (String × PyJson)) :
    insertField k v (PyFields.ofList l) = PyFields.ofList (insertPair (k, v) l) := by
  induction l with
  | nil => rfl
  | cons q qs ih =>
    rw [show PyFields.ofList (q :: qs) = .fcons q.1 q.2 (PyFields.ofList qs)
      from rfl]
    rw [insertField, insertPair]
    by_cases h : strLe k q.1 = true
    · rw [if_pos h, if_pos h]; rfl
    · rw [if_neg h, if_neg h]
      rw [show PyFields.ofList (q :: insertPair (k, v) qs)
        = .fcons q.1 q.2 (PyFields.ofList (insertPair (k, v) qs)) from rfl]
      rw [ih]

theorem sortFields_ofList (l : List (String × PyJson)) :
    sortFields (PyFields.ofList l) = PyFields.ofList (sortPairs l) := by
  induction l with
  | nil => rfl
  | cons q qs ih =>
    rw [show PyFields.ofList (q :: qs) = .fcons q.1 q.2 (PyFields.ofList qs)
      from rfl]
    rw [sortFields, ih, insertField_ofList]
    rfl

theorem normFields_ofList (l : List (String × PyJson)) :
    normFields (PyFields.ofList l)
      = PyFields.ofList (l.map (fun p => (p.1, normJson p.2))) := by
  induction l with
  | nil => rfl
  | cons q qs ih =>
    rw [show PyFields.ofList (q :: qs) = .fcons q.1 q.2 (PyFields.ofList qs)
      from rfl]
    rw [normFields, ih]
    rfl

theorem insertPair_perm (p : String × PyJson) (l : List (String × PyJson)) :
    (insertPair p l).Perm (p :: l) := by
  induction l with
  | nil => exact List.Perm.refl _
  | cons q qs ih =>
    rw [insertPair]
    by_cases h : strLe p.1 q.1 = true
    · rw [if_pos h]
    · rw [if_neg h]
      exact (ih.cons q).trans (List.Perm.swap p q qs)

theorem sortPairs_perm (l : List (String × PyJson)) : (sortPairs l).Perm l := by
  induction l with
  | nil => exact List.Perm.refl _
  | cons q qs ih =>
    have h1 : sortPairs (q :: qs) = insertPair q (sortPairs qs) := rfl
    rw [h1]
    exact (insertPair_perm q (sortPairs qs)).trans (ih.cons q)

theorem insertPair_mem (z p : String × PyJson) (l : List (String × PyJson))
    (hz : z ∈ insertPair p l) : z = p ∨ z ∈ l := by
  have := (insertPair_perm p l).mem_iff.mp hz
  simpa using this

theorem insertPair_pairwise (p : String × PyJson) (l : List (String × PyJson))
    (h : l.Pairwise (fun a b => strLe a.1 b.1 = true)) :
    (insertPair p l).Pairwise (fun a b => strLe a.1 b.1 = true) := by
  induction l with
  | nil =>
    simp only [insertPair]
    exact List.pairwise_singleton _ _
  | cons q qs ih =>
    rw [List.pairwise_cons] at h
    rw [insertPair]
    by_cases hpq : strLe p.1 q.1 = true
    · rw [if_pos hpq]
      refine List.Pairwise.cons ?_ (List.Pairwise.cons h.1 h.2)
      intro z hz
      rcases List.mem_cons.mp hz with hz | hz
      · rw [hz]; exact hpq
      · exact strLe_trans _ _ _ hpq (h.1 z hz)
    · rw [if_neg hpq]
      have hqp : strLe q.1 p.1 = true := by
        rcases strLe_total p.1 q.1 with ht | ht
        · exact absurd ht hpq
        · exact ht
      refine List.Pairwise.cons ?_ (ih h.2)
      intro z hz
      rcases insertPair_mem z p qs hz with hz | hz
      · rw [hz]; exact hqp
      · exact h.1 z hz

theorem sortPairs_pairwise (l : List (String × PyJson)) :
    (sortPairs l).Pairwise (fun a b => strLe a.1 b.1 = true) := by
  induction l with
  | nil => exact List.Pairwise.nil
  | cons q qs ih => exact insertPair_pairwise q (sortPairs qs) ih

theorem sorted_perm_eq :
    ∀ (l1 l2 : List (String × PyJson)),
      l1.Pairwise (fun a b => strLe a.1 b.1 = true) →
      l2.Pairwise (fun a b => strLe a.1 b.1 = true) →
      (l1.map Prod.fst).Nodup → l1.Perm l2 → l1 = l2 := by
  intro l1
  induction l1 with
  | nil =>
    intro l2 _ _ _ hperm
    exact (hperm.nil_eq).symm ▸ rfl
  | cons a t1 ih =>
    intro l2 hp1 hp2 hnd hperm
    cases l2 with
    | nil => exact absurd hperm.symm (by simp)
    | cons b t2 =>
      rw [List.pairwise_cons] at hp1 hp2
      by_cases hab : a = b
      · subst hab
        rw [ih t2 hp1.2 hp2.2 (by simpa using (List.nodup_cons.mp
          (by simpa using hnd)).2) (hperm.cons_inv)]
      · have hamem : a ∈ b :: t2 := hperm.mem_iff.mp (List.mem_cons_self a t1)
        have hbmem : b ∈ a :: t1 := hperm.symm.mem_iff.mp (List.mem_cons_self b t2)
        have hat2 : a ∈ t2 := by
          rcases List.mem_cons.mp hamem with h | h
          · exact absurd h hab
          · exact h
        have hbt1 : b ∈ t1 := by
          rcases List.mem_cons.mp hbmem with h | h
          · exact absurd h.symm hab
          · exact h
        have h1 : strLe a.1 b.1 = true := hp1.1 b hbt1
        have h2 : strLe b.1 a.1 = true := hp2.1 a hat2
        have hkey : a.1 = b.1 := strLe_antisymm _ _ h1 h2
        exfalso
        rw [List.map_cons, List.nodup_cons] at hnd
        exact hnd.1 (hkey ▸ List.mem_map_of_mem Prod.fst hbt1)

/-- Claim C7 (amended): the example-inputs fingerprint is the SHA-256 of
the `json.dumps(inputs, sort_keys=True)` serialisation, which sorts object
keys but uses CPython's default separators `", "` and `": "` (a space after
every comma and colon, so the serialisation is not whitespace-free); the
key-order invariance still holds: two inputs objects with the same entries
in different order (keys distinct, as in any Python dict) have equal
hashes. -/
theorem C7_hash_inputs_key_order (l1 l2 : List (String × PyJson))
    (hperm : l1.Perm l2) (hnd : (l1.map Prod.fst).Nodup) :
    hashInputs (.jobj (PyFields.ofList l1))
      = hashInputs (.jobj (PyFields.ofList l2)) := by
  suffices h : sortFields (normFields (PyFields.ofList l1))
      = sortFields (normFields (PyFields.ofList l2)) by
    simp only [hashInputs, pyDumpsSorted, normJson, h]
  rw [normFields_ofList, normFields_ofList, sortFields_ofList,
    sortFields_ofList]
  congr 1
  have hmap : ∀ l : List (String × PyJson),
      (l.map (fun p => (p.1, normJson p.2))).map Prod.fst = l.map Prod.fst := by
    intro l
    rw [List.map_map]
    rfl
  apply sorted_perm_eq
  · exact sortPairs_pairwise _
  · exact sortPairs_pairwise _
  · have hp : ((sortPairs (l1.map (fun p => (p.1, normJson p.2)))).map
        Prod.fst).Perm (l1.map Prod.fst) := by
      rw [← hmap l1]
      exact (sortPairs_perm _).map Prod.fst
    exact hp.nodup_iff.mpr hnd
  · exact (sortPairs_perm _).trans ((hperm.map _).trans (sortPairs_perm _).symm)

/-- Two concrete inputs objects differing only in entry order. -/
def sampleBA : List (String × PyJson) := [("b", .jint 2), ("a", .jint 1)]

/-- The same entries in the opposite order. -/
def sampleAB : List (String × PyJson) := [("a", .jint 1), ("b", .jint 2)]

/-- Witness for C7 at the two concrete permuted objects. -/
theorem C7_hash_inputs_key_order_witness :
    hashInputs (.jobj (PyFields.ofList sampleBA))
      = hashInputs (.jobj (PyFields.ofList sampleAB)) :=
  C7_hash_inputs_key_order sampleBA sampleAB
    (by exact List.Perm.swap ("a", PyJson.jint 1) ("b", PyJson.jint 2) [])
    (by decide)

/-- The inputs object of seed scenario 1, `{"q": 1}`. -/
def sampleQ : PyJson := .jobj (.fcons "q" (.jint 1) .fnil)

/-- Claim C7 (counterexample): the fingerprint of `\x7b"q": 1\x7d` is the
SHA-256 of the `json.dumps` text `'\x7b"q": 1\x7d'` — which contains a
space after the colon — and differs from the SHA-256 of the whitespace-free
canonical serialisation `'\x7b"q":1\x7d'` that the claim names. -/
theorem C7_hash_inputs_counterexample :
    pyDumpsSorted sampleQ = "\x7b\"q\": 1\x7d" ∧
    canonicalDumps sampleQ = "\x7b\"q\":1\x7d" ∧
    hashInputs sampleQ ≠ canonicalHash sampleQ := by
  refine ⟨by decide, by decide, by decide⟩

end LsMig
